import Mathlib

/-!
Verification of `Scripts/generate_lytte_from_rss.py`.

The script is shallowly embedded over `Str := List Char`: each Python string
operation used by the script is modelled by an executable Lean function, and
the script's functions (`slugify`, `render_front_matter`, `standard_body`,
`episode_id_from_link`, `normalize_file`, `write_or_update_episode_file`,
`parse_date_rfc822`, the `main` loop) are translated line by line.
-/

namespace Lytte

set_option maxRecDepth 100000

/-- Text is modelled as a list of characters (Python `str`). -/
abbrev Str := List Char

/-- Characters stripped by Python `str.strip()` / `str.rstrip()` with no
argument: the ASCII whitespace characters.  (Python also strips the rarer
Unicode space characters; the script never produces those.) -/
def isPySpace (c : Char) : Bool :=
  c = ' ' || c = '\t' || c = '\n' || c = '\r' || c = '\x0b' || c = '\x0c'

/-- Python `str.lstrip()`. -/
def pyLstrip (s : Str) : Str := s.dropWhile isPySpace

/-- Python `str.rstrip()`. -/
def pyRstrip (s : Str) : Str := (s.reverse.dropWhile isPySpace).reverse

/-- Python `str.strip()`. -/
def pyStrip (s : Str) : Str := pyRstrip (pyLstrip s)

/-- Models Python `str.lower` on the characters relevant to this script:
ASCII letters and the Nordic letters Æ, Ø, Å.  (Full Unicode case mapping is
not reproduced; the script only inspects ASCII and æ/ø/å downstream.) -/
def pyLowerChar (c : Char) : Char :=
  if c = 'Æ' then 'æ'
  else if c = 'Ø' then 'ø'
  else if c = 'Å' then 'å'
  else if 'A' ≤ c ∧ c ≤ 'Z' then Char.ofNat (c.toNat + 32)
  else c

/-- Python `str.lower`, character-wise. -/
def pyLower (s : Str) : Str := s.map pyLowerChar

/-- Python `str.replace` for a single-character pattern. -/
def pyReplace1 (a : Char) (b : Str) : Str → Str
  | [] => []
  | c :: t => (if c = a then b else [c]) ++ pyReplace1 a b t

/-- The character class `[a-z0-9]` of the slugify regexes. -/
def isSlugChar (c : Char) : Bool := ('a' ≤ c && c ≤ 'z') || ('0' ≤ c && c ≤ '9')

/-- `c != '-'`. -/
def nonDash (c : Char) : Bool := c != '-'

/-- Replace every maximal run of characters not satisfying `keep` by a single
`'-'`.  With `keep = isSlugChar` this is `re.sub(r"[^a-z0-9]+", "-", s)`;
with `keep = nonDash` it collapses every run of hyphens to a single hyphen,
the effect of `re.sub(r"-{2,}", "-", s)`. -/
def runCollapse (keep : Char → Bool) (s : Str) : Str :=
  s.foldr (fun c acc =>
    if keep c then c :: acc
    else if acc.head? = some '-' then acc else '-' :: acc) []

/-- Python `str.strip("-")`. -/
def stripDash (s : Str) : Str :=
  (((s.dropWhile fun c => c = '-').reverse.dropWhile fun c => c = '-')).reverse

/-- `slugify` (lines 11-16 of the script): strip and lowercase, substitute
æ→ae, ø→o, å→a, collapse non-`[a-z0-9]` runs to `-`, collapse `-` runs,
strip `-` from both ends, and fall back to the literal `"episode"` when the
result is empty. -/
def slugify (s : Str) : Str :=
  let t1 := pyLower (pyStrip s)
  let t2 := pyReplace1 'å' ['a'] (pyReplace1 'ø' ['o'] (pyReplace1 'æ' ['a', 'e'] t1))
  let t3 := runCollapse nonDash (runCollapse isSlugChar t2)
  let t4 := stripDash t3
  if t4 = [] then "episode".data else t4

/-- The composition of all slugify stages except the final fallback. -/
def slugCore (s : Str) : Str :=
  stripDash (runCollapse nonDash (runCollapse isSlugChar
    (pyReplace1 'å' ['a'] (pyReplace1 'ø' ['o'] (pyReplace1 'æ' ['a', 'e']
      (pyLower (pyStrip s)))))))

theorem slugify_eq_core (s : Str) :
    slugify s = if slugCore s = [] then "episode".data else slugCore s := rfl

/-- Characters that can appear in a slug: `[a-z0-9]` or `-`. -/
abbrev SlugOk (c : Char) : Prop := isSlugChar c = true ∨ c = '-'

/-- No two adjacent hyphens. -/
abbrev NoDD (s : Str) : Prop := s.Chain' fun a b => ¬(a = '-' ∧ b = '-')

theorem runCollapse_cons (keep : Char → Bool) (a : Char) (t : Str) :
    runCollapse keep (a :: t) =
      if keep a then a :: runCollapse keep t
      else if (runCollapse keep t).head? = some '-' then runCollapse keep t
      else '-' :: runCollapse keep t := rfl

theorem mem_runCollapse {keep : Char → Bool} :
    ∀ {s : Str} {c : Char}, c ∈ runCollapse keep s → (keep c = true ∧ c ∈ s) ∨ c = '-' := by
  intro s
  induction s with
  | nil => intro c h; simp [runCollapse] at h
  | cons a t ih =>
    intro c h
    rw [runCollapse_cons] at h
    split at h
    · next ha =>
      rcases List.mem_cons.mp h with rfl | h
      · exact Or.inl ⟨ha, List.mem_cons_self _ _⟩
      · rcases ih h with ⟨hk, hm⟩ | hd
        · exact Or.inl ⟨hk, List.mem_cons_of_mem _ hm⟩
        · exact Or.inr hd
    · split at h
      · rcases ih h with ⟨hk, hm⟩ | hd
        · exact Or.inl ⟨hk, List.mem_cons_of_mem _ hm⟩
        · exact Or.inr hd
      · rcases List.mem_cons.mp h with rfl | h
        · exact Or.inr rfl
        · rcases ih h with ⟨hk, hm⟩ | hd
          · exact Or.inl ⟨hk, List.mem_cons_of_mem _ hm⟩
          · exact Or.inr hd

theorem noDD_runCollapse {keep : Char → Bool} (hk : ∀ c, keep c = true → c ≠ '-') :
    ∀ s : Str, NoDD (runCollapse keep s) := by
  intro s
  induction s with
  | nil => exact List.chain'_nil
  | cons a t ih =>
    rw [runCollapse_cons]
    split
    · next ha =>
      exact List.chain'_cons'.mpr ⟨fun y _ hc => hk a ha hc.1, ih⟩
    · split
      · exact ih
      · next hh =>
        refine List.chain'_cons'.mpr ⟨fun y hy hc => hh ?_, ih⟩
        rw [Option.mem_def] at hy
        exact hc.2 ▸ hy

theorem runCollapse_eq_self {keep : Char → Bool} :
    ∀ s : Str, (∀ c ∈ s, keep c = true ∨ c = '-') → NoDD s → runCollapse keep s = s := by
  intro s
  induction s with
  | nil => intro _ _; rfl
  | cons a t ih =>
    intro hmem hdd
    have hdd' := List.chain'_cons'.mp hdd
    have ht : runCollapse keep t = t :=
      ih (fun c hc => hmem c (List.mem_cons_of_mem a hc)) hdd'.2
    rw [runCollapse_cons, ht]
    rcases hmem a (List.mem_cons_self a t) with ha | ha
    · rw [if_pos ha]
    · subst ha
      by_cases hka : keep '-' = true
      · rw [if_pos hka]
      · have hh : t.head? ≠ some '-' := by
          intro hh
          exact hdd'.1 '-' (Option.mem_def.mpr hh) ⟨rfl, rfl⟩
        rw [if_neg hka, if_neg hh]

theorem runCollapse_all_bad {keep : Char → Bool} :
    ∀ s : Str, (∀ c ∈ s, keep c = false) →
      runCollapse keep s = [] ∨ runCollapse keep s = ['-'] := by
  intro s
  induction s with
  | nil => intro _; exact Or.inl rfl
  | cons a t ih =>
    intro h
    have ha : keep a = false := h a (List.mem_cons_self a t)
    rw [runCollapse_cons, if_neg (by simp [ha])]
    rcases ih (fun c hc => h c (List.mem_cons_of_mem a hc)) with ht | ht
    · rw [ht]
      exact Or.inr (by simp)
    · rw [ht]
      exact Or.inr (by simp)

theorem dropWhile_head?_false {p : Char → Bool} :
    ∀ {l : Str} {c : Char}, (l.dropWhile p).head? = some c → p c = false := by
  intro l
  induction l with
  | nil => intro c h; simp [List.dropWhile] at h
  | cons a t ih =>
    intro c h
    rw [List.dropWhile_cons] at h
    split at h
    · exact ih h
    · next hpa =>
      rw [List.head?_cons, Option.some_inj] at h
      subst h
      simpa using hpa

theorem dropWhile_eq_self' {p : Char → Bool} {l : Str}
    (h : ∀ c, l.head? = some c → p c = false) : l.dropWhile p = l := by
  cases l with
  | nil => rfl
  | cons a t =>
    have := h a rfl
    simp [List.dropWhile_cons, this]

theorem prefix_head?_eq {l m : Str} (h : l <+: m) (hne : l ≠ []) : l.head? = m.head? := by
  obtain ⟨t, rfl⟩ := h
  cases l with
  | nil => exact absurd rfl hne
  | cons a u => rfl

theorem pyLower_eq_self : ∀ s : Str, (∀ c ∈ s, pyLowerChar c = c) → pyLower s = s := by
  intro s
  induction s with
  | nil => intro _; rfl
  | cons a t ih =>
    intro h
    rw [pyLower, List.map_cons, h a (List.mem_cons_self a t)]
    have := ih (fun c hc => h c (List.mem_cons_of_mem a hc))
    rw [pyLower] at this
    rw [this]

theorem pyReplace1_eq_self (a : Char) (b : Str) :
    ∀ s : Str, (∀ c ∈ s, c ≠ a) → pyReplace1 a b s = s := by
  intro s
  induction s with
  | nil => intro _; rfl
  | cons c t ih =>
    intro h
    rw [pyReplace1, if_neg (h c (List.mem_cons_self c t)), List.singleton_append,
      ih (fun d hd => h d (List.mem_cons_of_mem c hd))]

theorem pyStrip_eq_self {l : Str} (h : ∀ c ∈ l, isPySpace c = false) : pyStrip l = l := by
  have h1 : pyLstrip l = l :=
    dropWhile_eq_self' fun c hc => h c (List.mem_of_mem_head? (Option.mem_def.mpr hc))
  rw [pyStrip, h1, pyRstrip,
    dropWhile_eq_self' fun c hc =>
      h c (List.mem_reverse.mp (List.mem_of_mem_head? (Option.mem_def.mpr hc))),
    List.reverse_reverse]

theorem stripDash_eq_self {l : Str} (h1 : l.head? ≠ some '-') (h2 : l.getLast? ≠ some '-') :
    stripDash l = l := by
  have d1 : (l.dropWhile fun c => c = '-') = l := dropWhile_eq_self' fun c hc => by
    rw [decide_eq_false_iff_not]
    rintro rfl
    exact h1 hc
  rw [stripDash, d1,
    dropWhile_eq_self' (fun c hc => by
      rw [decide_eq_false_iff_not]
      rintro rfl
      rw [List.head?_reverse] at hc
      exact h2 hc),
    List.reverse_reverse]

theorem mem_stripDash {l : Str} {c : Char} (h : c ∈ stripDash l) : c ∈ l := by
  rw [stripDash, List.mem_reverse] at h
  have h2 := (List.dropWhile_suffix _).sublist.subset h
  rw [List.mem_reverse] at h2
  exact (List.dropWhile_suffix _).sublist.subset h2

theorem noDD_reverse {l : Str} (h : NoDD l) : NoDD l.reverse :=
  List.chain'_reverse.mpr (List.Chain'.imp (fun a b hab hc => hab ⟨hc.2, hc.1⟩) h)

theorem noDD_stripDash {l : Str} (h : NoDD l) : NoDD (stripDash l) :=
  noDD_reverse (List.Chain'.suffix
    (noDD_reverse (List.Chain'.suffix h (List.dropWhile_suffix _)))
    (List.dropWhile_suffix _))

theorem stripDash_head {l : Str} (h : stripDash l ≠ []) : (stripDash l).head? ≠ some '-' := by
  intro hc
  have hpre : stripDash l <+: (l.dropWhile fun c => c = '-') := by
    rw [stripDash]
    have hsuf := List.dropWhile_suffix (l := (l.dropWhile fun c => c = '-').reverse)
      fun c => c = '-'
    have := List.reverse_prefix.mpr hsuf
    rwa [List.reverse_reverse] at this
  have heq := prefix_head?_eq hpre h
  rw [hc] at heq
  have := dropWhile_head?_false heq.symm
  simp at this

theorem stripDash_getLast {l : Str} : (stripDash l).getLast? ≠ some '-' := by
  intro hc
  rw [← List.head?_reverse, stripDash, List.reverse_reverse] at hc
  have := dropWhile_head?_false hc
  simp at this

theorem slugOk_lower {c : Char} (h : SlugOk c) : pyLowerChar c = c := by
  rcases h with h | rfl
  · simp only [isSlugChar, Bool.or_eq_true, Bool.and_eq_true, decide_eq_true_eq] at h
    have hAE : c ≠ 'Æ' := by
      rintro rfl
      rcases h with ⟨_, h2⟩ | ⟨_, h2⟩ <;> exact absurd h2 (by decide)
    have hOE : c ≠ 'Ø' := by
      rintro rfl
      rcases h with ⟨_, h2⟩ | ⟨_, h2⟩ <;> exact absurd h2 (by decide)
    have hAA : c ≠ 'Å' := by
      rintro rfl
      rcases h with ⟨_, h2⟩ | ⟨_, h2⟩ <;> exact absurd h2 (by decide)
    have hAZ : ¬('A' ≤ c ∧ c ≤ 'Z') := by
      rintro ⟨ha, hz⟩
      rcases h with ⟨h1, _⟩ | ⟨h1, h2⟩
      · exact absurd (le_trans h1 hz) (by decide)
      · exact absurd (le_trans ha h2) (by decide)
    rw [pyLowerChar, if_neg hAE, if_neg hOE, if_neg hAA, if_neg hAZ]
  · decide

theorem slugOk_not_space {c : Char} (h : SlugOk c) : isPySpace c = false := by
  rcases h with h | rfl
  · by_contra hsp
    rw [Bool.not_eq_false] at hsp
    simp only [isPySpace, Bool.or_eq_true, decide_eq_true_eq] at hsp
    rcases hsp with ((((rfl | rfl) | rfl) | rfl) | rfl) | rfl <;> exact absurd h (by decide)
  · decide

theorem slugOk_ne {c : Char} (h : SlugOk c) (d : Char) (hd : ¬SlugOk d) : c ≠ d := by
  rintro rfl
  exact hd h

theorem slugCore_mem (s : Str) : ∀ c ∈ slugCore s, SlugOk c := by
  intro c hc
  have h1 := mem_stripDash hc
  rcases mem_runCollapse h1 with ⟨_, hm⟩ | hd
  · rcases mem_runCollapse hm with ⟨hk, _⟩ | hd
    · exact Or.inl hk
    · exact Or.inr hd
  · exact Or.inr hd

theorem slugCore_noDD (s : Str) : NoDD (slugCore s) :=
  noDD_stripDash (noDD_runCollapse (fun c h => by simpa [nonDash] using h) _)

theorem slugify_fix (r : Str) (hne : r ≠ []) (hmem : ∀ c ∈ r, SlugOk c)
    (hdd : NoDD r) (hh : r.head? ≠ some '-') (hl : r.getLast? ≠ some '-') :
    slugify r = r := by
  have h1 : pyStrip r = r := pyStrip_eq_self fun c hc => slugOk_not_space (hmem c hc)
  have h2 : pyLower r = r := pyLower_eq_self r fun c hc => slugOk_lower (hmem c hc)
  have h3 : pyReplace1 'æ' ['a', 'e'] r = r :=
    pyReplace1_eq_self _ _ r fun c hc => slugOk_ne (hmem c hc) 'æ' (by decide)
  have h4 : pyReplace1 'ø' ['o'] r = r :=
    pyReplace1_eq_self _ _ r fun c hc => slugOk_ne (hmem c hc) 'ø' (by decide)
  have h5 : pyReplace1 'å' ['a'] r = r :=
    pyReplace1_eq_self _ _ r fun c hc => slugOk_ne (hmem c hc) 'å' (by decide)
  have h6 : runCollapse isSlugChar r = r := runCollapse_eq_self r (fun c hc => hmem c hc) hdd
  have h7 : runCollapse nonDash r = r := runCollapse_eq_self r
    (fun c _ => by
      by_cases hcd : c = '-'
      · exact Or.inr hcd
      · exact Or.inl (by simpa [nonDash] using hcd))
    hdd
  have hcore : slugCore r = r := by
    rw [slugCore, h1, h2, h3, h4, h5, h6, h7, stripDash_eq_self hh hl]
  rw [slugify_eq_core, hcore, if_neg hne]

/-- Claim C7: slugify is idempotent: for every input string `x`,
`slugify (slugify x) = slugify x`. -/
theorem slugify_idempotent (s : Str) : slugify (slugify s) = slugify s := by
  rw [slugify_eq_core s]
  by_cases h : slugCore s = []
  · rw [if_pos h]
    decide
  · rw [if_neg h]
    exact slugify_fix (slugCore s) h (slugCore_mem s) (slugCore_noDD s)
      (stripDash_head h) stripDash_getLast

/-- Claim C8: slugify never returns the empty string; and whenever the
lower-cased, Nordic-substituted input contains no `[a-z0-9]` character at
all, the result is the literal fallback `"episode"`. -/
theorem slugify_never_empty :
    (∀ s : Str, slugify s ≠ []) ∧
    (∀ s : Str,
      (∀ c ∈ pyReplace1 'å' ['a'] (pyReplace1 'ø' ['o'] (pyReplace1 'æ' ['a', 'e']
          (pyLower (pyStrip s)))), isSlugChar c = false) →
      slugify s = "episode".data) := by
  constructor
  · intro s
    rw [slugify_eq_core]
    by_cases h : slugCore s = []
    · rw [if_pos h]; decide
    · rw [if_neg h]; exact h
  · intro s h
    have hcore : slugCore s = [] := by
      rw [slugCore]
      rcases runCollapse_all_bad _ h with h1 | h1 <;> rw [h1] <;> decide
    rw [slugify_eq_core, if_pos hcore]

/-- Witness for the hypothesis-bearing part of `slugify_never_empty`:
the input `"!?!"` contains no alphanumeric content and slugifies to
`"episode"`. -/
theorem slugify_never_empty_witness :
    (∀ c ∈ pyReplace1 'å' ['a'] (pyReplace1 'ø' ['o'] (pyReplace1 'æ' ['a', 'e']
        (pyLower (pyStrip "!?!".data)))), isSlugChar c = false) ∧
    slugify "!?!".data = "episode".data :=
  ⟨by decide, slugify_never_empty.2 "!?!".data (by decide)⟩

/-- The episode dictionary built by `build_front_matter` (lines 92-102).
`tags` is carried although `render_front_matter` emits a fixed literal for
it; `draft` is the only Boolean value. -/
structure EpisodeRecord where
  title : Str
  date : Str
  display_date : Str
  description : Str
  rss_embed : Str
  audio_url : Str
  link : Str
  tags : List Str
  draft : Bool

/-- `yml_escape_inline` (lines 56-57): `s.replace('"', '\\"')`. -/
def yml_escape_inline : Str → Str
  | [] => []
  | c :: t => (if c = '"' then ['\\', '"'] else [c]) ++ yml_escape_inline t

/-- After a `\r`, a directly following `\n` belongs to the same line
boundary. -/
def dropCRLF (s : Str) : Str :=
  match s with
  | d :: rest2 => if d = '\n' then rest2 else d :: rest2
  | [] => []

theorem dropCRLF_length (s : Str) : (dropCRLF s).length ≤ s.length := by
  cases s with
  | nil => exact le_rfl
  | cons d r =>
    rw [dropCRLF]
    split
    · simp
    · exact le_rfl

/-- Helper for `pySplitlines`, with the accumulator holding the current line
reversed; `\r\n` counts as a single boundary. -/
def splitlinesAux (acc : Str) (s : Str) : List Str :=
  match s with
  | [] => if acc = [] then [] else [acc.reverse]
  | c :: rest =>
    if c = '\n' then acc.reverse :: splitlinesAux [] rest
    else if c = '\r' then acc.reverse :: splitlinesAux [] (dropCRLF rest)
    else splitlinesAux (c :: acc) rest
termination_by s.length
decreasing_by
  all_goals simp only [List.length_cons]
  all_goals first
    | omega
    | exact Nat.lt_succ_of_le (dropCRLF_length _)

/-- Python `str.splitlines()` on the line boundaries `\r\n`, `\r`, `\n`
(the exotic Unicode boundaries Python also recognises are not modelled). -/
def pySplitlines (s : Str) : List Str := splitlinesAux [] s

theorem splitlinesAux_nil (acc : Str) :
    splitlinesAux acc [] = if acc = [] then [] else [acc.reverse] := by
  rw [splitlinesAux.eq_def]

theorem splitlinesAux_cons (acc : Str) (c : Char) (rest : Str) :
    splitlinesAux acc (c :: rest) =
      if c = '\n' then acc.reverse :: splitlinesAux [] rest
      else if c = '\r' then acc.reverse :: splitlinesAux [] (dropCRLF rest)
      else splitlinesAux (c :: acc) rest := by
  rw [splitlinesAux.eq_def]

/-- Python `sep.join(xs)`. -/
def joinSep (sep : Str) : List Str → Str
  | [] => []
  | [x] => x
  | x :: y :: t => x ++ sep ++ joinSep sep (y :: t)

/-- `yml_block` (lines 59-66): rstrip; `""` when empty, else a `|` block
scalar with each line indented by two spaces and rstripped. -/
def yml_block (s : Str) : Str :=
  let s' := pyRstrip s
  if s' = [] then ['"', '"']
  else '|' :: '\n' :: joinSep ['\n'] ((pySplitlines s').map fun ln => pyRstrip (' ' :: ' ' :: ln))

/-- The `out` list built by `render_front_matter` (lines 106-118), iterating
FRONTMATTER_ORDER with the tags literal, the description block scalar, the
Boolean branch for draft, and inline-quoted escaped strings otherwise. -/
def fmOut (fm : EpisodeRecord) : List Str :=
  ["---".data,
   "title: \"".data ++ yml_escape_inline fm.title ++ ['"'],
   "date: \"".data ++ yml_escape_inline fm.date ++ ['"'],
   "display_date: \"".data ++ yml_escape_inline fm.display_date ++ ['"'],
   "description: ".data ++ yml_block fm.description,
   "rss_embed: \"".data ++ yml_escape_inline fm.rss_embed ++ ['"'],
   "audio_url: \"".data ++ yml_escape_inline fm.audio_url ++ ['"'],
   "link: \"".data ++ yml_escape_inline fm.link ++ ['"'],
   "tags: [\"lytteøvelser\",\"podcast\"]".data,
   "draft: ".data ++ (if fm.draft then "true".data else "false".data),
   "---".data]

/-- `render_front_matter` (lines 106-119): `"\n".join(out) + "\n"`. -/
def render_front_matter (fm : EpisodeRecord) : Str := joinSep ['\n'] (fmOut fm) ++ ['\n']

/-- ASCII decimal digits; models `\d` of the episode-id regex. -/
def isAsciiDigit (c : Char) : Bool := '0' ≤ c && c ≤ '9'

/-- `episode_id_from_link` (lines 68-70), `re.search(r"/(\d+)/?$", link)`:
after peeling one optional trailing `/`, the maximal trailing digit run must
be nonempty and preceded by `/`. -/
def episode_id_from_link (link : Str) : Option Str :=
  let s := if link.getLast? = some '/' then link.dropLast else link
  let ds := (s.reverse.takeWhile isAsciiDigit).reverse
  if ds ≠ [] ∧ (s.take (s.length - ds.length)).getLast? = some '/' then some ds
  else none

/-- The iframe markup built in `build_front_matter` (lines 83-87); the
f-string interpolates the episode id and the title verbatim. -/
def rss_embed_of (title link : Str) : Str :=
  match episode_id_from_link link with
  | some eid =>
      "<iframe src=\"https://player.rss.com/lytte/".data ++ eid ++
      "\" loading=\"lazy\" style=\"width:100%;height:180px;border:0;overflow:hidden;\" title=\"".data ++
      title ++ "\"></iframe>".data
  | none => []

/-- The `parts` list of `standard_body` (lines 121-133). -/
def bodyParts (fm : EpisodeRecord) : List Str :=
  ["\x7b\x7b< episodeplayer >\x7d\x7d".data]
  ++ (if fm.description ≠ [] then ["\n## Beskrivelse".data, fm.description] else [])
  ++ ["\n## Notater\n- Viktige punkter:\n  - …\n  - …".data,
      "\n## Lenker".data,
      "- Original episode: ".data ++ fm.link]
  ++ (match episode_id_from_link fm.link with
      | some eid => ["- Delbar spiller: https://player.rss.com/lytte/".data ++ eid]
      | none => [])

/-- `standard_body` (lines 121-133): `"\n".join(parts) + "\n"`. -/
def standard_body (fm : EpisodeRecord) : Str := joinSep ['\n'] (bodyParts fm) ++ ['\n']

/-- One attempt to match the separator `\r?\n---\r?\n` of the front-matter
regex at the head of a string; the four alternatives are mutually exclusive
at any one position, listed in the regex backtracking order. -/
def sepSplit (s : Str) : Option Str :=
  if "\r\n---\r\n".data.isPrefixOf s then some (s.drop 7)
  else if "\r\n---\n".data.isPrefixOf s then some (s.drop 6)
  else if "\n---\r\n".data.isPrefixOf s then some (s.drop 6)
  else if "\n---\n".data.isPrefixOf s then some (s.drop 5)
  else none

/-- The non-greedy scan of `(.*?)\r?\n---\r?\n` under DOTALL: split at the
first position where the separator matches. -/
def findSep : Str → Option (Str × Str)
  | [] => none
  | c :: rest =>
    match sepSplit (c :: rest) with
    | some tail => some ([], tail)
    | none => (findSep rest).map fun p => (c :: p.1, p.2)

/-- `re.match(r"^---\r?\n(.*?)\r?\n---\r?\n(.*)$", text, re.DOTALL)`
(line 138): the pair (group 1, group 2) on success. -/
def matchFrontMatter (text : Str) : Option (Str × Str) :=
  if "---\r\n".data.isPrefixOf text then findSep (text.drop 5)
  else if "---\n".data.isPrefixOf text then findSep (text.drop 4)
  else none

/-- Python's `needle in haystack` substring test. -/
def containsSub (needle : Str) : Str → Bool
  | [] => needle.isPrefixOf []
  | c :: rest => needle.isPrefixOf (c :: rest) || containsSub needle rest

/-- The separator comment inserted before preserved legacy content
(line 144). -/
def sepComment : Str := "\n---\n<!-- Tidligere innhold bevart under -->\n".data

/-- The `body` written back by `normalize_file` in the parsed-front-matter
branch (lines 149-154): the stripped group 2, replaced by the generated
template when empty or lacking the `episodeplayer` marker. -/
def newBody (fm : EpisodeRecord) (rest : Str) : Str :=
  if pyStrip rest = [] || !containsSub "episodeplayer".data (pyStrip rest)
  then standard_body fm else pyStrip rest

/-- The `new` content assembled on line 156: front matter, body, and a final
newline unless the body already ends with one. -/
def newContent (fm : EpisodeRecord) (rest : Str) : Str :=
  render_front_matter fm ++ newBody fm rest ++
    (if (newBody fm rest).getLast? = some '\n' then [] else ['\n'])

/-- `normalize_file` (lines 135-160).  The Boolean is the function's return
value (true iff the file was rewritten); the string is the file's content
afterwards. -/
def normalize_file (text : Str) (fm : EpisodeRecord) : Bool × Str :=
  match matchFrontMatter text with
  | none =>
    (true,
     if pyStrip text ≠ [] then
       render_front_matter fm ++ standard_body fm ++ sepComment ++ pyStrip text ++ ['\n']
     else render_front_matter fm ++ standard_body fm)
  | some (_, rest) =>
    if newContent fm rest = text then (false, text) else (true, newContent fm rest)

/-- `write_or_update_episode_file` (lines 162-173) over an abstract file
system: `existing` is the current content of `CONTENT_ROOT/slug/index.md`,
or `none` when the file does not exist. -/
def write_or_update_episode_file (existing : Option Str) (fm : EpisodeRecord) : Bool × Str :=
  match existing with
  | some text => normalize_file text fm
  | none => (true, render_front_matter fm ++ standard_body fm)

theorem containsSub_of_isPrefixOf {n : Str} :
    ∀ {h : Str}, n.isPrefixOf h = true → containsSub n h = true := by
  intro h hp
  cases h with
  | nil => simpa [containsSub] using hp
  | cons c t => simp [containsSub, hp]

theorem containsSub_append (n pre suf : Str) : containsSub n (pre ++ (n ++ suf)) = true := by
  induction pre with
  | nil =>
    rw [List.nil_append]
    exact containsSub_of_isPrefixOf (List.isPrefixOf_iff_prefix.mpr ⟨suf, rfl⟩)
  | cons c t ih =>
    rw [List.cons_append, containsSub, ih]
    simp

theorem joinSep_cons (sep x : Str) {xs : List Str} (h : xs ≠ []) :
    joinSep sep (x :: xs) = x ++ sep ++ joinSep sep xs := by
  cases xs with
  | nil => exact absurd rfl h
  | cons y t => rfl

theorem joinSep_append_last (sep x : Str) :
    ∀ xs : List Str, xs ≠ [] → joinSep sep (xs ++ [x]) = joinSep sep xs ++ sep ++ x := by
  intro xs
  induction xs with
  | nil => intro h; exact absurd rfl h
  | cons y t ih =>
    intro _
    cases t with
    | nil => rfl
    | cons z u =>
      rw [List.cons_append, joinSep_cons sep y (by simp),
        joinSep_cons sep y (by simp), ih (by simp)]
      simp [List.append_assoc]

/-- Claim C4 helper: the id extracted from the example link of the spec. -/
theorem episode_id_lytte_12345 :
    episode_id_from_link "https://x/lytte/12345".data = some "12345".data := by decide

theorem rss_embed_of_eq {title link eid : Str} (h : episode_id_from_link link = some eid) :
    rss_embed_of title link =
      "<iframe src=\"https://player.rss.com/lytte/".data ++ eid ++
      "\" loading=\"lazy\" style=\"width:100%;height:180px;border:0;overflow:hidden;\" title=\"".data ++
      title ++ "\"></iframe>".data := by
  simp [rss_embed_of, h]

/-- Claim C4 (amended): the embed markup is non-empty iff an episode id is
extracted from the link, and in that case it is the fixed iframe template
parameterized by the id and the title inserted verbatim (the code applies no
escaping to the title); for the link https://x/lytte/12345 the id is "12345"
and the embed contains player.rss.com/lytte/12345. -/
theorem rss_embed_contract :
    (∀ title link : Str,
      rss_embed_of title link ≠ [] ↔ (episode_id_from_link link).isSome = true) ∧
    (∀ title link eid : Str, episode_id_from_link link = some eid →
      rss_embed_of title link =
        "<iframe src=\"https://player.rss.com/lytte/".data ++ eid ++
        "\" loading=\"lazy\" style=\"width:100%;height:180px;border:0;overflow:hidden;\" title=\"".data ++
        title ++ "\"></iframe>".data) ∧
    episode_id_from_link "https://x/lytte/12345".data = some "12345".data ∧
    ∀ title : Str,
      containsSub "player.rss.com/lytte/12345".data
        (rss_embed_of title "https://x/lytte/12345".data) = true := by
  refine ⟨?_, ?_, episode_id_lytte_12345, ?_⟩
  · intro title link
    cases h : episode_id_from_link link with
    | none => simp [rss_embed_of, h]
    | some eid => simp [rss_embed_of_eq h, h]
  · intro title link eid h
    exact rss_embed_of_eq h
  · intro title
    rw [rss_embed_of_eq episode_id_lytte_12345]
    have hsplit : ("<iframe src=\"https://player.rss.com/lytte/".data : Str) ++ "12345".data =
        "<iframe src=\"https://".data ++ "player.rss.com/lytte/12345".data := by decide
    have key : ("<iframe src=\"https://player.rss.com/lytte/".data : Str) ++ ("12345".data ++
        ("\" loading=\"lazy\" style=\"width:100%;height:180px;border:0;overflow:hidden;\" title=\"".data ++
          (title ++ "\"></iframe>".data))) =
        "<iframe src=\"https://".data ++ ("player.rss.com/lytte/12345".data ++
        ("\" loading=\"lazy\" style=\"width:100%;height:180px;border:0;overflow:hidden;\" title=\"".data ++
          (title ++ "\"></iframe>".data))) := by
      rw [← List.append_assoc, hsplit, List.append_assoc]
    simp only [List.append_assoc]
    rw [key]
    exact containsSub_append _ _ _

/-- Witness for `rss_embed_contract`: the template equation instantiated at
a concrete title and link with an extractable id. -/
theorem rss_embed_contract_witness :
    episode_id_from_link "https://x/lytte/12345".data = some "12345".data ∧
    rss_embed_of "T".data "https://x/lytte/12345".data =
      "<iframe src=\"https://player.rss.com/lytte/".data ++ "12345".data ++
      "\" loading=\"lazy\" style=\"width:100%;height:180px;border:0;overflow:hidden;\" title=\"".data ++
      "T".data ++ "\"></iframe>".data :=
  ⟨by decide,
    rss_embed_contract.2.1 "T".data "https://x/lytte/12345".data "12345".data (by decide)⟩

/-- Claim C4 counterexample: for the title `x"y` the generated embed carries
the title verbatim, not the escaped form required by the claim (the only
escaping function of the script is `yml_escape_inline`). -/
theorem rss_embed_escaped_counterexample :
    rss_embed_of "x\"y".data "https://x/lytte/123".data ≠
      "<iframe src=\"https://player.rss.com/lytte/".data ++ "123".data ++
      "\" loading=\"lazy\" style=\"width:100%;height:180px;border:0;overflow:hidden;\" title=\"".data ++
      yml_escape_inline "x\"y".data ++ "\"></iframe>".data := by decide

theorem render_fm_split (fm : EpisodeRecord) :
    render_front_matter fm = joinSep ['\n'] (fmOut fm).dropLast ++ "\n---\n".data := by
  have hsplit : fmOut fm = (fmOut fm).dropLast ++ ["---".data] := by
    rw [fmOut]
    rfl
  rw [render_front_matter]
  conv_lhs => rw [hsplit]
  rw [joinSep_append_last ['\n'] "---".data _ (by rw [fmOut]; simp)]
  simp only [List.append_assoc]
  rfl

/-- Claim C5: for every EpisodeRecord (any field values), the rendered front
matter begins with the marker line, ends with the marker line, and lists
exactly the keys title, date, display_date, description, rss_embed,
audio_url, link, tags, draft, in that fixed order, each key starting a
segment terminated by a newline. -/
theorem render_front_matter_canonical (fm : EpisodeRecord) :
    "---\n".data <+: render_front_matter fm ∧
    "\n---\n".data <:+ render_front_matter fm ∧
    ∃ v1 v2 v3 v4 v5 v6 v7 v8 v9 : Str,
      render_front_matter fm =
        "---\n".data ++
        ("title: ".data ++ v1 ++ ['\n'] ++
         ("date: ".data ++ v2 ++ ['\n'] ++
          ("display_date: ".data ++ v3 ++ ['\n'] ++
           ("description: ".data ++ v4 ++ ['\n'] ++
            ("rss_embed: ".data ++ v5 ++ ['\n'] ++
             ("audio_url: ".data ++ v6 ++ ['\n'] ++
              ("link: ".data ++ v7 ++ ['\n'] ++
               ("tags: ".data ++ v8 ++ ['\n'] ++
                ("draft: ".data ++ v9 ++ ['\n'] ++
                 "---\n".data))))))))) := by
  have key : render_front_matter fm =
      "---\n".data ++
      ("title: ".data ++ ('"' :: yml_escape_inline fm.title ++ ['"']) ++ ['\n'] ++
       ("date: ".data ++ ('"' :: yml_escape_inline fm.date ++ ['"']) ++ ['\n'] ++
        ("display_date: ".data ++ ('"' :: yml_escape_inline fm.display_date ++ ['"']) ++ ['\n'] ++
         ("description: ".data ++ yml_block fm.description ++ ['\n'] ++
          ("rss_embed: ".data ++ ('"' :: yml_escape_inline fm.rss_embed ++ ['"']) ++ ['\n'] ++
           ("audio_url: ".data ++ ('"' :: yml_escape_inline fm.audio_url ++ ['"']) ++ ['\n'] ++
            ("link: ".data ++ ('"' :: yml_escape_inline fm.link ++ ['"']) ++ ['\n'] ++
             ("tags: ".data ++ "[\"lytteøvelser\",\"podcast\"]".data ++ ['\n'] ++
              ("draft: ".data ++ (if fm.draft then "true".data else "false".data) ++ ['\n'] ++
               "---\n".data))))))))) := by
    have e1 : ("title: \"".data : Str) = "title: ".data ++ ['"'] := by decide
    have e2 : ("date: \"".data : Str) = "date: ".data ++ ['"'] := by decide
    have e3 : ("display_date: \"".data : Str) = "display_date: ".data ++ ['"'] := by decide
    have e5 : ("rss_embed: \"".data : Str) = "rss_embed: ".data ++ ['"'] := by decide
    have e6 : ("audio_url: \"".data : Str) = "audio_url: ".data ++ ['"'] := by decide
    have e7 : ("link: \"".data : Str) = "link: ".data ++ ['"'] := by decide
    have e8 : ("tags: [\"lytteøvelser\",\"podcast\"]".data : Str) =
        "tags: ".data ++ "[\"lytteøvelser\",\"podcast\"]".data := by decide
    rw [render_front_matter, fmOut, joinSep, joinSep, joinSep, joinSep, joinSep, joinSep,
      joinSep, joinSep, joinSep, joinSep, e1, e2, e3, e5, e6, e7, e8]
    simp only [List.append_assoc, List.singleton_append, List.cons_append, List.nil_append]
    rfl
  refine ⟨?_, ?_, _, _, _, _, _, _, _, _, _, key⟩
  · rw [key]; exact List.prefix_append _ _
  · exact ⟨joinSep ['\n'] (fmOut fm).dropLast, (render_fm_split fm).symm⟩

/-- A front-matter line over which the separator scan passes cleanly: no
line break inside and not starting with a hyphen. -/
def LineOk (ln : Str) : Prop :=
  (∀ c ∈ ln, c ≠ '\n' ∧ c ≠ '\r') ∧ ln.head? ≠ some '-'

theorem sepSplit_eq (s : Str) : sepSplit s =
    if ['\r', '\n', '-', '-', '-', '\r', '\n'].isPrefixOf s then some (s.drop 7)
    else if ['\r', '\n', '-', '-', '-', '\n'].isPrefixOf s then some (s.drop 6)
    else if ['\n', '-', '-', '-', '\r', '\n'].isPrefixOf s then some (s.drop 6)
    else if ['\n', '-', '-', '-', '\n'].isPrefixOf s then some (s.drop 5)
    else none := rfl

theorem sepSplit_cons_other {c : Char} (rest : Str) (h1 : c ≠ '\n') (h2 : c ≠ '\r') :
    sepSplit (c :: rest) = none := by
  have b1 : (('\r' : Char) == c) = false := beq_eq_false_iff_ne.mpr (Ne.symm h2)
  have b2 : (('\n' : Char) == c) = false := beq_eq_false_iff_ne.mpr (Ne.symm h1)
  rw [sepSplit_eq]
  simp [List.isPrefixOf, b1, b2]

theorem findSep_cons (c : Char) (rest : Str) :
    findSep (c :: rest) =
      match sepSplit (c :: rest) with
      | some tail => some ([], tail)
      | none => (findSep rest).map fun p => (c :: p.1, p.2) := rfl

theorem findSep_append_line {ln : Str} (h : ∀ c ∈ ln, c ≠ '\n' ∧ c ≠ '\r') (s : Str) :
    findSep (ln ++ s) = (findSep s).map fun p => (ln ++ p.1, p.2) := by
  induction ln with
  | nil =>
    rw [List.nil_append]
    cases findSep s <;> rfl
  | cons c t ih =>
    have hc := h c (List.mem_cons_self c t)
    rw [List.cons_append, findSep_cons, sepSplit_cons_other _ hc.1 hc.2,
      ih fun d hd => h d (List.mem_cons_of_mem c hd)]
    cases findSep s <;> rfl

theorem isPrefixOf_false_of_head (c0 : Char) (xs : Str) {s : Str} (h : s.head? ≠ some c0) :
    (c0 :: xs).isPrefixOf s = false := by
  cases s with
  | nil => rfl
  | cons a t =>
    have hne : (c0 == a) = false := by
      apply beq_eq_false_iff_ne.mpr
      intro he
      exact h (by rw [List.head?_cons, he])
    simp [List.isPrefixOf, hne]

theorem findSep_cons_newline {s : Str} (hhead : s.head? ≠ some '-') :
    findSep ('\n' :: s) = (findSep s).map fun p => ('\n' :: p.1, p.2) := by
  have h3 := isPrefixOf_false_of_head '-' ['-', '-', '\r', '\n'] hhead
  have h4 := isPrefixOf_false_of_head '-' ['-', '-', '\n'] hhead
  have hsep : sepSplit ('\n' :: s) = none := by
    rw [sepSplit_eq]
    simp [List.isPrefixOf, h3, h4]
  rw [findSep_cons, hsep]

theorem findSep_at_sep (B : Str) :
    findSep ('\n' :: '-' :: '-' :: '-' :: '\n' :: B) = some ([], B) := by
  have hsep : sepSplit ('\n' :: '-' :: '-' :: '-' :: '\n' :: B) = some B := by
    rw [sepSplit_eq]
    simp [List.isPrefixOf]
  rw [findSep_cons, hsep]

theorem head?_append_ne_dash {J : Str} {tail : Str} (hJ : J.head? ≠ some '-' ∨ J = [])
    (htail : tail.head? ≠ some '-') : (J ++ tail).head? ≠ some '-' := by
  cases J with
  | nil => simpa using htail
  | cons a t =>
    rcases hJ with hJ | hJ
    · rw [List.cons_append, List.head?_cons]
      rw [List.head?_cons] at hJ
      exact hJ
    · exact absurd hJ (List.cons_ne_nil a t)

theorem joinSep_head_dash (lines : List Str) (h : ∀ ln ∈ lines, ln.head? ≠ some '-') :
    (joinSep ['\n'] lines).head? ≠ some '-' ∨ joinSep ['\n'] lines = [] := by
  cases lines with
  | nil => exact Or.inr rfl
  | cons l t =>
    cases t with
    | nil => exact Or.inl (h l (List.mem_cons_self _ _))
    | cons l2 u =>
      left
      rw [joinSep_cons _ _ (List.cons_ne_nil l2 u), List.append_assoc]
      apply head?_append_ne_dash ?_ ?_
      · cases hl : l with
        | nil => exact Or.inr rfl
        | cons a t2 =>
          left
          have hhd := h l (List.mem_cons_self _ _)
          rw [hl] at hhd
          exact hhd
      · rw [List.singleton_append, List.head?_cons]
        intro hc
        exact absurd (Option.some_inj.mp hc) (by decide)

theorem findSep_joinInner :
    ∀ (lines : List Str) (B : Str), lines ≠ [] → (∀ ln ∈ lines, LineOk ln) →
      findSep (joinSep ['\n'] lines ++ '\n' :: '-' :: '-' :: '-' :: '\n' :: B) =
        some (joinSep ['\n'] lines, B) := by
  intro lines
  induction lines with
  | nil => intro B h _; exact absurd rfl h
  | cons l t ih =>
    intro B _ hok
    have hl := hok l (List.mem_cons_self _ _)
    cases t with
    | nil =>
      rw [joinSep, findSep_append_line hl.1, findSep_at_sep]
      simp
    | cons l2 u =>
      have hhead : (joinSep ['\n'] (l2 :: u) ++
          '\n' :: '-' :: '-' :: '-' :: '\n' :: B).head? ≠ some '-' := by
        apply head?_append_ne_dash
        · exact joinSep_head_dash (l2 :: u)
            fun ln hln => (hok ln (List.mem_cons_of_mem _ hln)).2
        · rw [List.head?_cons]
          intro hc
          exact absurd (Option.some_inj.mp hc) (by decide)
      rw [joinSep_cons _ _ (List.cons_ne_nil l2 u), List.append_assoc, List.append_assoc,
        List.singleton_append, findSep_append_line hl.1, findSep_cons_newline hhead,
        ih B (List.cons_ne_nil _ _) fun ln hln => hok ln (List.mem_cons_of_mem _ hln)]
      simp [joinSep_cons _ _ (List.cons_ne_nil l2 u), List.append_assoc]

theorem joinSep_append (sep : Str) :
    ∀ (xs ys : List Str), xs ≠ [] → ys ≠ [] →
      joinSep sep (xs ++ ys) = joinSep sep xs ++ sep ++ joinSep sep ys := by
  intro xs
  induction xs with
  | nil => intro ys h _; exact absurd rfl h
  | cons x t ih =>
    intro ys _ hys
    cases t with
    | nil =>
      rw [List.cons_append, List.nil_append, joinSep_cons sep x hys]
      rfl
    | cons y u =>
      rw [List.cons_append, joinSep_cons sep x (by simp),
        joinSep_cons sep x (List.cons_ne_nil y u), ih ys (List.cons_ne_nil y u) hys]
      simp [List.append_assoc]

theorem mem_pyRstrip {s : Str} {c : Char} (h : c ∈ pyRstrip s) : c ∈ s := by
  rw [pyRstrip, List.mem_reverse] at h
  have h2 := (List.dropWhile_suffix _).sublist.subset h
  rwa [List.mem_reverse] at h2

theorem pyRstrip_cons_head (c : Char) (s : Str) :
    pyRstrip (c :: s) = [] ∨ (pyRstrip (c :: s)).head? = some c := by
  rw [pyRstrip, List.reverse_cons, List.dropWhile_append]
  split
  · rw [List.dropWhile_cons]
    split
    · left; rfl
    · right; rfl
  · right
    rw [List.reverse_append]
    simp

theorem splitlinesAux_no_break :
    ∀ (n : Nat) (s acc : Str), s.length ≤ n → (∀ c ∈ acc, c ≠ '\n' ∧ c ≠ '\r') →
      ∀ ln ∈ splitlinesAux acc s, ∀ c ∈ ln, c ≠ '\n' ∧ c ≠ '\r' := by
  intro n
  induction n with
  | zero =>
    intro s acc hlen hacc ln hln
    have hs : s = [] := List.eq_nil_of_length_eq_zero (Nat.le_zero.mp hlen)
    subst hs
    rw [splitlinesAux_nil] at hln
    split at hln
    · simp at hln
    · rw [List.mem_singleton] at hln
      subst hln
      intro c hc
      exact hacc c (List.mem_reverse.mp hc)
  | succ n ih =>
    intro s acc hlen hacc ln hln
    cases s with
    | nil =>
      rw [splitlinesAux_nil] at hln
      split at hln
      · simp at hln
      · rw [List.mem_singleton] at hln
        subst hln
        intro c hc
        exact hacc c (List.mem_reverse.mp hc)
    | cons a rest =>
      rw [List.length_cons] at hlen
      have hrest : rest.length ≤ n := Nat.le_of_succ_le_succ hlen
      rw [splitlinesAux_cons] at hln
      by_cases ha : a = '\n'
      · rw [if_pos ha] at hln
        rcases List.mem_cons.mp hln with rfl | hln
        · intro c hc; exact hacc c (List.mem_reverse.mp hc)
        · exact ih rest [] hrest (by simp) ln hln
      · rw [if_neg ha] at hln
        by_cases hr : a = '\r'
        · rw [if_pos hr] at hln
          rcases List.mem_cons.mp hln with rfl | hln
          · intro c hc; exact hacc c (List.mem_reverse.mp hc)
          · exact ih (dropCRLF rest) [] (le_trans (dropCRLF_length rest) hrest)
              (by simp) ln hln
        · rw [if_neg hr] at hln
          refine ih rest (a :: acc) hrest ?_ ln hln
          intro c hc
          rcases List.mem_cons.mp hc with rfl | hc
          · exact ⟨ha, hr⟩
          · exact hacc c hc

theorem splitlinesAux_ne_nil :
    ∀ (n : Nat) (s acc : Str), s.length ≤ n → (acc ≠ [] ∨ s ≠ []) →
      splitlinesAux acc s ≠ [] := by
  intro n
  induction n with
  | zero =>
    intro s acc hlen hor
    have hs : s = [] := List.eq_nil_of_length_eq_zero (Nat.le_zero.mp hlen)
    subst hs
    rw [splitlinesAux]
    rcases hor with hacc | hne
    · rw [if_neg hacc]; exact List.cons_ne_nil _ _
    · exact absurd rfl hne
  | succ n ih =>
    intro s acc hlen hor
    cases s with
    | nil =>
      rw [splitlinesAux_nil]
      rcases hor with hacc | hne
      · rw [if_neg hacc]; exact List.cons_ne_nil _ _
      · exact absurd rfl hne
    | cons a rest =>
      rw [List.length_cons] at hlen
      rw [splitlinesAux_cons]
      by_cases ha : a = '\n'
      · rw [if_pos ha]; exact List.cons_ne_nil _ _
      · rw [if_neg ha]
        by_cases hr : a = '\r'
        · rw [if_pos hr]; exact List.cons_ne_nil _ _
        · rw [if_neg hr]
          exact ih rest (a :: acc) (Nat.le_of_succ_le_succ hlen)
            (Or.inl (List.cons_ne_nil a acc))

theorem pySplitlines_no_break {s : Str} : ∀ ln ∈ pySplitlines s, ∀ c ∈ ln, c ≠ '\n' ∧ c ≠ '\r' :=
  splitlinesAux_no_break s.length s [] le_rfl (by simp)

theorem pySplitlines_ne_nil {s : Str} (h : s ≠ []) : pySplitlines s ≠ [] :=
  splitlinesAux_ne_nil s.length s [] le_rfl (Or.inr h)

/-- The lines of the rendered description entry. -/
def descLines (d : Str) : List Str :=
  if pyRstrip d = [] then ["description: \"\"".data]
  else "description: |".data ::
    (pySplitlines (pyRstrip d)).map fun ln => pyRstrip (' ' :: ' ' :: ln)

/-- The individual lines of the key block of the rendered front matter (the
entries of `fmOut` without the two marker lines, with the description block
scalar split into its lines). -/
def fmKeyLines (fm : EpisodeRecord) : List Str :=
  ["title: \"".data ++ yml_escape_inline fm.title ++ ['"'],
   "date: \"".data ++ yml_escape_inline fm.date ++ ['"'],
   "display_date: \"".data ++ yml_escape_inline fm.display_date ++ ['"']]
  ++ descLines fm.description
  ++ ["rss_embed: \"".data ++ yml_escape_inline fm.rss_embed ++ ['"'],
      "audio_url: \"".data ++ yml_escape_inline fm.audio_url ++ ['"'],
      "link: \"".data ++ yml_escape_inline fm.link ++ ['"'],
      "tags: [\"lytteøvelser\",\"podcast\"]".data,
      "draft: ".data ++ (if fm.draft then "true".data else "false".data)]

theorem fmOut_dropLast_lines (fm : EpisodeRecord) :
    joinSep ['\n'] (fmOut fm).dropLast =
      "---".data ++ '\n' :: joinSep ['\n'] (fmKeyLines fm) := by
  by_cases h : pyRstrip fm.description = []
  · simp only [fmOut, fmKeyLines, descLines, yml_block, if_pos h, List.dropLast, joinSep,
      List.cons_append, List.nil_append, List.append_assoc, List.singleton_append]
  · have hind : ((pySplitlines (pyRstrip fm.description)).map
        fun ln => pyRstrip (' ' :: ' ' :: ln)) ≠ [] := by
      intro hc
      exact pySplitlines_ne_nil h (List.map_eq_nil_iff.mp hc)
    rw [fmOut, fmKeyLines, descLines, if_neg h]
    have hbl : yml_block fm.description =
        '|' :: '\n' :: joinSep ['\n'] ((pySplitlines (pyRstrip fm.description)).map
          fun ln => pyRstrip (' ' :: ' ' :: ln)) := by
      rw [yml_block]
      simp only [if_neg h]
    rw [hbl]
    rw [show (["title: \"".data ++ yml_escape_inline fm.title ++ ['"'],
        "date: \"".data ++ yml_escape_inline fm.date ++ ['"'],
        "display_date: \"".data ++ yml_escape_inline fm.display_date ++ ['"']] ++
        ("description: |".data ::
          (pySplitlines (pyRstrip fm.description)).map fun ln => pyRstrip (' ' :: ' ' :: ln)) ++
        ["rss_embed: \"".data ++ yml_escape_inline fm.rss_embed ++ ['"'],
         "audio_url: \"".data ++ yml_escape_inline fm.audio_url ++ ['"'],
         "link: \"".data ++ yml_escape_inline fm.link ++ ['"'],
         "tags: [\"lytteøvelser\",\"podcast\"]".data,
         "draft: ".data ++ (if fm.draft then "true".data else "false".data)] : List Str) =
      (["title: \"".data ++ yml_escape_inline fm.title ++ ['"'],
        "date: \"".data ++ yml_escape_inline fm.date ++ ['"'],
        "display_date: \"".data ++ yml_escape_inline fm.display_date ++ ['"']] ++
        (("description: |".data ::
          (pySplitlines (pyRstrip fm.description)).map fun ln => pyRstrip (' ' :: ' ' :: ln)) ++
        ["rss_embed: \"".data ++ yml_escape_inline fm.rss_embed ++ ['"'],
         "audio_url: \"".data ++ yml_escape_inline fm.audio_url ++ ['"'],
         "link: \"".data ++ yml_escape_inline fm.link ++ ['"'],
         "tags: [\"lytteøvelser\",\"podcast\"]".data,
         "draft: ".data ++ (if fm.draft then "true".data else "false".data)])) from
      List.append_assoc _ _ _]
    rw [joinSep_append ['\n'] _ _ (by simp) (by simp),
      joinSep_append ['\n'] _ _ (List.cons_ne_nil _ _) (by simp),
      joinSep_cons ['\n'] _ hind]
    simp only [List.dropLast, joinSep, List.append_assoc, List.cons_append, List.nil_append,
      List.singleton_append]

theorem yml_escape_mem {s : Str} {c : Char} :
    c ∈ yml_escape_inline s → c = '\\' ∨ c = '"' ∨ c ∈ s := by
  induction s with
  | nil => intro h; simp [yml_escape_inline] at h
  | cons a t ih =>
    intro h
    rw [yml_escape_inline] at h
    rcases List.mem_append.mp h with h1 | h1
    · split at h1
      · simp only [List.mem_cons, List.not_mem_nil, or_false] at h1
        rcases h1 with h1 | h1
        · exact Or.inl h1
        · exact Or.inr (Or.inl h1)
      · rw [List.mem_singleton] at h1
        subst h1
        exact Or.inr (Or.inr (List.mem_cons_self _ _))
    · rcases ih h1 with h2 | h2 | h2
      · exact Or.inl h2
      · exact Or.inr (Or.inl h2)
      · exact Or.inr (Or.inr (List.mem_cons_of_mem _ h2))

theorem head?_append_left {l : Str} (r : Str) (h : l ≠ []) : (l ++ r).head? = l.head? := by
  cases l with
  | nil => exact absurd rfl h
  | cons a t => rfl

theorem lineOk_inline {pre : Str} (hpre : ∀ c ∈ pre, c ≠ '\n' ∧ c ≠ '\r')
    (hne : pre ≠ []) (hhead : pre.head? ≠ some '-') {v : Str}
    (hv : ∀ c ∈ v, c ≠ '\n' ∧ c ≠ '\r') :
    LineOk (pre ++ yml_escape_inline v ++ ['"']) := by
  constructor
  · intro c hc
    rcases List.mem_append.mp hc with h1 | h1
    · rcases List.mem_append.mp h1 with h2 | h2
      · exact hpre c h2
      · rcases yml_escape_mem h2 with h3 | h3 | h3
        · subst h3; exact ⟨by decide, by decide⟩
        · subst h3; exact ⟨by decide, by decide⟩
        · exact hv c h3
    · rw [List.mem_singleton] at h1
      subst h1
      exact ⟨by decide, by decide⟩
  · have h1 : pre ++ yml_escape_inline v ≠ [] := fun hc => hne (List.append_eq_nil.mp hc).1
    rw [head?_append_left _ h1, head?_append_left _ hne]
    exact hhead

theorem descLines_ok (d : Str) : ∀ ln ∈ descLines d, LineOk ln := by
  intro ln hln
  rw [descLines] at hln
  split at hln
  · rw [List.mem_singleton] at hln
    subst hln
    exact ⟨by decide, by decide⟩
  · rcases List.mem_cons.mp hln with rfl | hln
    · exact ⟨by decide, by decide⟩
    · rcases List.mem_map.mp hln with ⟨ln0, hln0, rfl⟩
      constructor
      · intro c hc
        have hc2 := mem_pyRstrip hc
        rcases List.mem_cons.mp hc2 with rfl | hc3
        · exact ⟨by decide, by decide⟩
        · rcases List.mem_cons.mp hc3 with rfl | hc4
          · exact ⟨by decide, by decide⟩
          · exact pySplitlines_no_break ln0 hln0 c hc4
      · rcases pyRstrip_cons_head ' ' (' ' :: ln0) with he | he
        · rw [he]
          intro hc
          simp at hc
        · rw [he]
          intro hc
          exact absurd (Option.some_inj.mp hc) (by decide)

theorem fmKeyLines_ok (fm : EpisodeRecord)
    (ht : ∀ c ∈ fm.title, c ≠ '\n' ∧ c ≠ '\r')
    (hd : ∀ c ∈ fm.date, c ≠ '\n' ∧ c ≠ '\r')
    (hdd : ∀ c ∈ fm.display_date, c ≠ '\n' ∧ c ≠ '\r')
    (he : ∀ c ∈ fm.rss_embed, c ≠ '\n' ∧ c ≠ '\r')
    (ha : ∀ c ∈ fm.audio_url, c ≠ '\n' ∧ c ≠ '\r')
    (hl : ∀ c ∈ fm.link, c ≠ '\n' ∧ c ≠ '\r') :
    ∀ ln ∈ fmKeyLines fm, LineOk ln := by
  intro ln hln
  rw [fmKeyLines] at hln
  rcases List.mem_append.mp hln with h1 | h1
  · rcases List.mem_append.mp h1 with h2 | h2
    · rcases List.mem_cons.mp h2 with rfl | h3
      · exact lineOk_inline (by decide) (by decide) (by decide) ht
      · rcases List.mem_cons.mp h3 with rfl | h4
        · exact lineOk_inline (by decide) (by decide) (by decide) hd
        · rw [List.mem_singleton] at h4
          subst h4
          exact lineOk_inline (by decide) (by decide) (by decide) hdd
    · exact descLines_ok fm.description ln h2
  · rcases List.mem_cons.mp h1 with rfl | h2
    · exact lineOk_inline (by decide) (by decide) (by decide) he
    · rcases List.mem_cons.mp h2 with rfl | h3
      · exact lineOk_inline (by decide) (by decide) (by decide) ha
      · rcases List.mem_cons.mp h3 with rfl | h4
        · exact lineOk_inline (by decide) (by decide) (by decide) hl
        · rcases List.mem_cons.mp h4 with rfl | h5
          · exact ⟨by decide, by decide⟩
          · rw [List.mem_singleton] at h5
            subst h5
            cases hdr : fm.draft
            · rw [if_neg (by simp [hdr])]
              exact ⟨by decide, by decide⟩
            · rw [if_pos (by simp [hdr])]
              exact ⟨by decide, by decide⟩

theorem fmKeyLines_ne_nil (fm : EpisodeRecord) : fmKeyLines fm ≠ [] := by
  rw [fmKeyLines]
  simp

theorem matchFrontMatter_render (fm : EpisodeRecord) (B : Str)
    (hok : ∀ ln ∈ fmKeyLines fm, LineOk ln) :
    matchFrontMatter (render_front_matter fm ++ B) =
      some (joinSep ['\n'] (fmKeyLines fm), B) := by
  have hr : render_front_matter fm ++ B =
      '-' :: '-' :: '-' :: '\n' ::
        (joinSep ['\n'] (fmKeyLines fm) ++ '\n' :: '-' :: '-' :: '-' :: '\n' :: B) := by
    rw [render_fm_split, fmOut_dropLast_lines]
    simp only [List.append_assoc, List.cons_append, List.nil_append]
  rw [hr, matchFrontMatter]
  rw [if_neg (by simp [List.isPrefixOf]), if_pos (by simp [List.isPrefixOf])]
  have hdrop : List.drop 4 ('-' :: '-' :: '-' :: '\n' ::
      (joinSep ['\n'] (fmKeyLines fm) ++ '\n' :: '-' :: '-' :: '-' :: '\n' :: B)) =
      joinSep ['\n'] (fmKeyLines fm) ++ '\n' :: '-' :: '-' :: '-' :: '\n' :: B := rfl
  rw [hdrop]
  exact findSep_joinInner (fmKeyLines fm) B (fmKeyLines_ne_nil fm) hok

/-- The generated body without its final newline. -/
def bodyCore (fm : EpisodeRecord) : Str := joinSep ['\n'] (bodyParts fm)

theorem standard_body_eq (fm : EpisodeRecord) : standard_body fm = bodyCore fm ++ ['\n'] := rfl

theorem bodyParts_cons (fm : EpisodeRecord) :
    bodyParts fm = "\x7b\x7b< episodeplayer >\x7d\x7d".data ::
      ((if fm.description ≠ [] then ["\n## Beskrivelse".data, fm.description] else [])
       ++ (["\n## Notater\n- Viktige punkter:\n  - …\n  - …".data,
            "\n## Lenker".data,
            "- Original episode: ".data ++ fm.link]
          ++ (match episode_id_from_link fm.link with
              | some eid => ["- Delbar spiller: https://player.rss.com/lytte/".data ++ eid]
              | none => []))) := by
  rw [bodyParts]
  simp [List.append_assoc]

theorem joinSep_head_of_ne {x : Str} (hx : x ≠ []) (xs : List Str) :
    (joinSep ['\n'] (x :: xs)).head? = x.head? := by
  cases xs with
  | nil => rfl
  | cons y t =>
    rw [joinSep_cons _ _ (List.cons_ne_nil y t), List.append_assoc, head?_append_left _ hx]

theorem joinSep_getLast_of_ne {x : Str} (hx : x ≠ []) (xs : List Str) (hxs : xs ≠ []) :
    (joinSep ['\n'] (xs ++ [x])).getLast? = x.getLast? := by
  rw [joinSep_append_last _ _ xs hxs, List.getLast?_append]
  cases hlast : x.getLast? with
  | none => exact absurd (List.getLast?_eq_none_iff.mp hlast) hx
  | some c => rfl

theorem bodyCore_head (fm : EpisodeRecord) : (bodyCore fm).head? = some '\x7b' := by
  rw [bodyCore, bodyParts_cons, joinSep_head_of_ne (by decide)]
  rfl

theorem bodyCore_ne (fm : EpisodeRecord) : bodyCore fm ≠ [] := by
  intro hc
  have := bodyCore_head fm
  rw [hc] at this
  simp at this

theorem episode_id_digits {link e : Str} (h : episode_id_from_link link = some e) :
    e ≠ [] ∧ ∀ c ∈ e, isAsciiDigit c = true := by
  simp only [episode_id_from_link] at h
  split at h
  · split at h
    · next hcond =>
      rw [Option.some_inj] at h
      subst h
      exact ⟨hcond.1, fun c hc => List.mem_takeWhile_imp (List.mem_reverse.mp hc)⟩
    · exact absurd h (by simp)
  · split at h
    · next hcond =>
      rw [Option.some_inj] at h
      subst h
      exact ⟨hcond.1, fun c hc => List.mem_takeWhile_imp (List.mem_reverse.mp hc)⟩
    · exact absurd h (by simp)

theorem digit_not_space {c : Char} (h : isAsciiDigit c = true) : isPySpace c = false := by
  by_contra hc
  rw [Bool.not_eq_false] at hc
  simp only [isPySpace, Bool.or_eq_true, decide_eq_true_eq] at hc
  rcases hc with ((((rfl | rfl) | rfl) | rfl) | rfl) | rfl <;> exact absurd h (by decide)

theorem getLast?_append_left {l : Str} (r : Str) (h : r ≠ []) :
    (l ++ r).getLast? = r.getLast? := by
  rw [List.getLast?_append]
  cases hlast : r.getLast? with
  | none => exact absurd (List.getLast?_eq_none_iff.mp hlast) h
  | some c => rfl

theorem bodyCore_getLast (fm : EpisodeRecord) (hlink : fm.link ≠ [])
    (hlast : ∀ c, fm.link.getLast? = some c → isPySpace c = false) :
    ∀ c, (bodyCore fm).getLast? = some c → isPySpace c = false := by
  intro c hc
  rw [bodyCore, bodyParts_cons] at hc
  cases he : episode_id_from_link fm.link with
  | some e =>
    rw [he] at hc
    have hdig := episode_id_digits he
    have hx : ("- Delbar spiller: https://player.rss.com/lytte/".data ++ e : Str) ≠ [] := by
      intro h0
      exact absurd (List.append_eq_nil.mp h0).1 (by decide)
    rw [show ("\x7b\x7b< episodeplayer >\x7d\x7d".data ::
        ((if fm.description ≠ [] then ["\n## Beskrivelse".data, fm.description] else [])
         ++ (["\n## Notater\n- Viktige punkter:\n  - …\n  - …".data,
              "\n## Lenker".data,
              "- Original episode: ".data ++ fm.link]
            ++ ["- Delbar spiller: https://player.rss.com/lytte/".data ++ e])) : List Str) =
        ("\x7b\x7b< episodeplayer >\x7d\x7d".data ::
         ((if fm.description ≠ [] then ["\n## Beskrivelse".data, fm.description] else [])
          ++ ["\n## Notater\n- Viktige punkter:\n  - …\n  - …".data,
              "\n## Lenker".data,
              "- Original episode: ".data ++ fm.link]))
        ++ ["- Delbar spiller: https://player.rss.com/lytte/".data ++ e] from by
      simp [List.append_assoc]] at hc
    rw [joinSep_getLast_of_ne hx _ (List.cons_ne_nil _ _)] at hc
    rw [getLast?_append_left _ hdig.1] at hc
    rcases List.mem_of_mem_getLast? hc with hmem
    exact digit_not_space (hdig.2 c hmem)
  | none =>
    rw [he] at hc
    rw [show ("\x7b\x7b< episodeplayer >\x7d\x7d".data ::
        ((if fm.description ≠ [] then ["\n## Beskrivelse".data, fm.description] else [])
         ++ (["\n## Notater\n- Viktige punkter:\n  - …\n  - …".data,
              "\n## Lenker".data,
              "- Original episode: ".data ++ fm.link] ++ [])) : List Str) =
        ("\x7b\x7b< episodeplayer >\x7d\x7d".data ::
         ((if fm.description ≠ [] then ["\n## Beskrivelse".data, fm.description] else [])
          ++ ["\n## Notater\n- Viktige punkter:\n  - …\n  - …".data,
              "\n## Lenker".data]))
        ++ ["- Original episode: ".data ++ fm.link] from by
      simp [List.append_assoc]] at hc
    rw [joinSep_getLast_of_ne (by
        intro h0
        exact absurd (List.append_eq_nil.mp h0).1 (by decide)) _ (List.cons_ne_nil _ _)] at hc
    rw [getLast?_append_left _ hlink] at hc
    exact hlast c hc

theorem bodyCore_contains (fm : EpisodeRecord) :
    containsSub "episodeplayer".data (bodyCore fm) = true := by
  have hrest : ((if fm.description ≠ [] then ["\n## Beskrivelse".data, fm.description] else [])
       ++ (["\n## Notater\n- Viktige punkter:\n  - …\n  - …".data,
            "\n## Lenker".data,
            "- Original episode: ".data ++ fm.link]
          ++ (match episode_id_from_link fm.link with
              | some eid => ["- Delbar spiller: https://player.rss.com/lytte/".data ++ eid]
              | none => []))) ≠ ([] : List Str) := by
    intro hc
    rcases List.append_eq_nil.mp hc with ⟨_, h2⟩
    rcases List.append_eq_nil.mp h2 with ⟨h3, _⟩
    exact absurd h3 (by simp)
  rw [bodyCore, bodyParts_cons, joinSep_cons _ _ hrest]
  have hsplit : ("\x7b\x7b< episodeplayer >\x7d\x7d".data : Str) =
      "\x7b\x7b< ".data ++ ("episodeplayer".data ++ " >\x7d\x7d".data) := by decide
  rw [hsplit]
  simp only [List.append_assoc]
  exact containsSub_append _ _ _

theorem pyStrip_wrap {l : Str} (hne : l ≠ [])
    (hhead : ∀ c, l.head? = some c → isPySpace c = false)
    (hlast : ∀ c, l.getLast? = some c → isPySpace c = false) :
    pyStrip (l ++ ['\n']) = l := by
  have h1 : pyLstrip (l ++ ['\n']) = l ++ ['\n'] := dropWhile_eq_self' fun c hc => by
    rw [head?_append_left _ hne] at hc
    exact hhead c hc
  rw [pyStrip, h1, pyRstrip, List.reverse_append,
    show (['\n'] : Str).reverse = ['\n'] from rfl, List.singleton_append,
    List.dropWhile_cons, if_pos (by decide),
    dropWhile_eq_self' fun c hc => by
      rw [List.head?_reverse] at hc
      exact hlast c hc,
    List.reverse_reverse]

theorem pyStrip_getLast {s : Str} : ∀ c, (pyStrip s).getLast? = some c → isPySpace c = false := by
  intro c hc
  rw [pyStrip, pyRstrip, ← List.head?_reverse, List.reverse_reverse] at hc
  exact dropWhile_head?_false hc

theorem normalize_file_some {text g1 g2 : Str} (fm : EpisodeRecord)
    (h : matchFrontMatter text = some (g1, g2)) :
    normalize_file text fm =
      if newContent fm g2 = text then (false, text) else (true, newContent fm g2) := by
  rw [normalize_file, h]

theorem normalize_file_none {text : Str} (fm : EpisodeRecord)
    (h : matchFrontMatter text = none) :
    normalize_file text fm =
      (true,
       if pyStrip text ≠ [] then
         render_front_matter fm ++ standard_body fm ++ sepComment ++ pyStrip text ++ ['\n']
       else render_front_matter fm ++ standard_body fm) := by
  rw [normalize_file, h]

theorem newBody_marked {g2 : Str} (fm : EpisodeRecord) (hne : pyStrip g2 ≠ [])
    (hcont : containsSub "episodeplayer".data (pyStrip g2) = true) :
    newBody fm g2 = pyStrip g2 := by
  have e1 : (decide (pyStrip g2 = []) || !containsSub "episodeplayer".data (pyStrip g2)) =
      false := by
    rw [decide_eq_false hne, hcont]
    rfl
  simp [newBody, e1]

theorem newContent_marked {g2 : Str} (fm : EpisodeRecord) (hne : pyStrip g2 ≠ [])
    (hcont : containsSub "episodeplayer".data (pyStrip g2) = true) :
    newContent fm g2 = render_front_matter fm ++ pyStrip g2 ++ ['\n'] := by
  have hlast : (pyStrip g2).getLast? ≠ some '\n' := by
    intro hc
    exact absurd (pyStrip_getLast '\n' hc) (by decide)
  rw [newContent, newBody_marked fm hne hcont, if_neg hlast]

/-- A representative record with an extractable episode id, as built from a
typical feed item. -/
def fmSample : EpisodeRecord :=
  ⟨"Tur i skogen".data, "2024-01-02".data, "02-01-2024".data, "Hei".data,
   rss_embed_of "Tur i skogen".data "https://rss.com/lytte/123".data,
   "https://a/b.mp3".data, "https://rss.com/lytte/123".data,
   ["lytteøvelser".data, "podcast".data], false⟩

/-- A record built from an item carrying a guid but no link element: the
link and the fields derived from it are empty. -/
def fmNoLink : EpisodeRecord :=
  ⟨"x".data, "2024-01-02".data, "02-01-2024".data, [], [], [], [],
   ["lytteøvelser".data, "podcast".data], false⟩

/-- Claim C1 (amended): re-running the writer on its own fresh output with
an unchanged EpisodeRecord produces byte-identical content and reports
unchanged (returns false), provided the record's inline front-matter fields
contain no line breaks and the link is nonempty and does not end in
whitespace.  (Without the link condition the fresh body ends in
"- Original episode: \n" whose trailing space the re-run strips, so the
re-run reports changed: see `writer_idempotent_counterexample`.) -/
theorem writer_idempotent (fm : EpisodeRecord)
    (ht : ∀ c ∈ fm.title, c ≠ '\n' ∧ c ≠ '\r')
    (hd : ∀ c ∈ fm.date, c ≠ '\n' ∧ c ≠ '\r')
    (hdd : ∀ c ∈ fm.display_date, c ≠ '\n' ∧ c ≠ '\r')
    (he : ∀ c ∈ fm.rss_embed, c ≠ '\n' ∧ c ≠ '\r')
    (ha : ∀ c ∈ fm.audio_url, c ≠ '\n' ∧ c ≠ '\r')
    (hl : ∀ c ∈ fm.link, c ≠ '\n' ∧ c ≠ '\r')
    (hlink : fm.link ≠ [])
    (hlast : ∀ c, fm.link.getLast? = some c → isPySpace c = false) :
    write_or_update_episode_file (some ((write_or_update_episode_file none fm).2)) fm =
      (false, (write_or_update_episode_file none fm).2) := by
  have hm := matchFrontMatter_render fm (standard_body fm)
    (fmKeyLines_ok fm ht hd hdd he ha hl)
  have hstrip : pyStrip (standard_body fm) = bodyCore fm := by
    rw [standard_body_eq]
    refine pyStrip_wrap (bodyCore_ne fm) ?_ (bodyCore_getLast fm hlink hlast)
    intro c hc
    rw [bodyCore_head fm, Option.some_inj] at hc
    subst hc
    decide
  have hne2 : pyStrip (standard_body fm) ≠ [] := by
    rw [hstrip]; exact bodyCore_ne fm
  have hcont : containsSub "episodeplayer".data (pyStrip (standard_body fm)) = true := by
    rw [hstrip]; exact bodyCore_contains fm
  show normalize_file (render_front_matter fm ++ standard_body fm) fm =
    (false, render_front_matter fm ++ standard_body fm)
  rw [normalize_file_some fm hm, newContent_marked fm hne2 hcont, hstrip,
    if_pos (by rw [standard_body_eq, List.append_assoc])]

/-- Witness for `writer_idempotent`: all hypotheses hold at `fmSample` and
the re-run reports unchanged with identical bytes. -/
theorem writer_idempotent_witness :
    (∀ c ∈ fmSample.title, c ≠ '\n' ∧ c ≠ '\r') ∧
    (∀ c ∈ fmSample.date, c ≠ '\n' ∧ c ≠ '\r') ∧
    (∀ c ∈ fmSample.display_date, c ≠ '\n' ∧ c ≠ '\r') ∧
    (∀ c ∈ fmSample.rss_embed, c ≠ '\n' ∧ c ≠ '\r') ∧
    (∀ c ∈ fmSample.audio_url, c ≠ '\n' ∧ c ≠ '\r') ∧
    (∀ c ∈ fmSample.link, c ≠ '\n' ∧ c ≠ '\r') ∧
    fmSample.link ≠ [] ∧
    (∀ c, fmSample.link.getLast? = some c → isPySpace c = false) ∧
    write_or_update_episode_file
        (some ((write_or_update_episode_file none fmSample).2)) fmSample =
      (false, (write_or_update_episode_file none fmSample).2) :=
  ⟨by decide, by decide, by decide, by decide, by decide, by decide, by decide,
   fun c hc => by
     rw [show (fmSample.link.getLast? : Option Char) = some '3' from by decide,
       Option.some_inj] at hc
     subst hc
     decide,
   writer_idempotent fmSample (by decide) (by decide) (by decide) (by decide) (by decide)
     (by decide) (by decide)
     (fun c hc => by
       rw [show (fmSample.link.getLast? : Option Char) = some '3' from by decide,
         Option.some_inj] at hc
       subst hc
       decide)⟩

/-- Claim C1 counterexample: for the record of an item with no link, the
writer creates a fresh file and the immediate re-run on that same file with
the unchanged record reports CHANGED (returns true), because the generated
body line "- Original episode: " ends in a space that the re-run strips. -/
theorem writer_idempotent_counterexample :
    (write_or_update_episode_file
        (some ((write_or_update_episode_file none fmNoLink).2)) fmNoLink).1 = true := by
  decide

/-- Claim C2 (amended): when the existing content parses as a front-matter
block followed by a body that contains the episodeplayer marker, the
normalized content is the front matter rebuilt from the record followed by
the body preserved up to Python strip — the stripped body plus exactly one
trailing newline (not byte-for-byte verbatim; see
`normalize_body_verbatim_counterexample`). -/
theorem normalize_preserves_marked_body (fm : EpisodeRecord) (text g1 g2 : Str)
    (h : matchFrontMatter text = some (g1, g2))
    (hne : pyStrip g2 ≠ [])
    (hcont : containsSub "episodeplayer".data (pyStrip g2) = true) :
    (normalize_file text fm).2 = render_front_matter fm ++ pyStrip g2 ++ ['\n'] := by
  rw [normalize_file_some fm h, newContent_marked fm hne hcont]
  split
  · next heq => exact heq.symm
  · rfl

/-- Witness for `normalize_preserves_marked_body` at a concrete file. -/
theorem normalize_preserves_marked_body_witness :
    matchFrontMatter "---\ntitle: \"a\"\n---\n\x7b\x7b< episodeplayer >\x7d\x7d\nNotater\n".data =
      some ("title: \"a\"".data, "\x7b\x7b< episodeplayer >\x7d\x7d\nNotater\n".data) ∧
    pyStrip "\x7b\x7b< episodeplayer >\x7d\x7d\nNotater\n".data ≠ [] ∧
    containsSub "episodeplayer".data
      (pyStrip "\x7b\x7b< episodeplayer >\x7d\x7d\nNotater\n".data) = true ∧
    (normalize_file "---\ntitle: \"a\"\n---\n\x7b\x7b< episodeplayer >\x7d\x7d\nNotater\n".data
        fmSample).2 =
      render_front_matter fmSample ++
        pyStrip "\x7b\x7b< episodeplayer >\x7d\x7d\nNotater\n".data ++ ['\n'] :=
  ⟨by decide, by decide, by decide,
   normalize_preserves_marked_body fmSample
     "---\ntitle: \"a\"\n---\n\x7b\x7b< episodeplayer >\x7d\x7d\nNotater\n".data
     "title: \"a\"".data "\x7b\x7b< episodeplayer >\x7d\x7d\nNotater\n".data
     (by decide) (by decide) (by decide)⟩

/-- Claim C2 counterexample: a file whose body "\n{{< episodeplayer >}}\n"
contains the marker but starts with a blank line; normalization drops that
leading newline, so the body is not preserved byte-for-byte. -/
theorem normalize_body_verbatim_counterexample :
    matchFrontMatter "---\ntitle: \"a\"\n---\n\n\x7b\x7b< episodeplayer >\x7d\x7d\n".data =
      some ("title: \"a\"".data, "\n\x7b\x7b< episodeplayer >\x7d\x7d\n".data) ∧
    containsSub "episodeplayer".data "\n\x7b\x7b< episodeplayer >\x7d\x7d\n".data = true ∧
    (normalize_file "---\ntitle: \"a\"\n---\n\n\x7b\x7b< episodeplayer >\x7d\x7d\n".data
        fmNoLink).2 ≠
      render_front_matter fmNoLink ++ "\n\x7b\x7b< episodeplayer >\x7d\x7d\n".data :=
  ⟨by decide, by decide, by decide⟩

/-- Claim C3 (amended): when the existing content has no parseable
front-matter block, normalization always reports changed and writes fresh
front matter plus the generated body, appending the TRIMMED legacy content
(when it is nonempty) after the separator comment and a final newline —
the legacy text is preserved up to Python strip, not verbatim. -/
theorem normalize_malformed (fm : EpisodeRecord) (text : Str)
    (h : matchFrontMatter text = none) :
    (normalize_file text fm).1 = true ∧
    (normalize_file text fm).2 =
      (if pyStrip text ≠ [] then
        render_front_matter fm ++ standard_body fm ++ sepComment ++ pyStrip text ++ ['\n']
       else render_front_matter fm ++ standard_body fm) := by
  rw [normalize_file_none fm h]
  exact ⟨rfl, rfl⟩

/-- Witness for `normalize_malformed` at a concrete legacy file. -/
theorem normalize_malformed_witness :
    matchFrontMatter "gammel tekst\n".data = none ∧
    (normalize_file "gammel tekst\n".data fmSample).1 = true ∧
    (normalize_file "gammel tekst\n".data fmSample).2 =
      (if pyStrip "gammel tekst\n".data ≠ [] then
        render_front_matter fmSample ++ standard_body fmSample ++ sepComment ++
          pyStrip "gammel tekst\n".data ++ ['\n']
       else render_front_matter fmSample ++ standard_body fmSample) :=
  ⟨by decide,
   (normalize_malformed fmSample "gammel tekst\n".data (by decide)).1,
   (normalize_malformed fmSample "gammel tekst\n".data (by decide)).2⟩

/-- Claim C3 counterexample: for legacy content " x\n" (leading space), the
appended legacy text is trimmed to "x", so the new file does not consist of
front matter, template and the legacy text B verbatim after the separator
comment. -/
theorem normalize_malformed_verbatim_counterexample :
    matchFrontMatter " x\n".data = none ∧
    (render_front_matter fmNoLink ++ standard_body fmNoLink ++ sepComment ++
        " x\n".data).isPrefixOf (normalize_file " x\n".data fmNoLink).2 = false :=
  ⟨by decide, by decide⟩

/-- A calendar date as produced by `datetime.date()`. -/
structure PDate where
  year : Nat
  month : Nat
  day : Nat
deriving DecidableEq

def isLeap (y : Nat) : Bool := y % 4 = 0 && (y % 100 ≠ 0 || y % 400 = 0)

def daysInMonth (y m : Nat) : Nat :=
  if m = 2 then (if isLeap y then 29 else 28)
  else if m = 4 || m = 6 || m = 9 || m = 11 then 30
  else 31

def digitVal (c : Char) : Nat := c.toNat - '0'.toNat

/-- ASCII lower-casing for the case-insensitive name matching of strptime. -/
def lowAscii (c : Char) : Char :=
  if 'A' ≤ c ∧ c ≤ 'Z' then Char.ofNat (c.toNat + 32) else c

def weekAbbrevs : List Str :=
  ["mon".data, "tue".data, "wed".data, "thu".data, "fri".data, "sat".data, "sun".data]

def monthAbbrevs : List Str :=
  ["jan".data, "feb".data, "mar".data, "apr".data, "may".data, "jun".data,
   "jul".data, "aug".data, "sep".data, "oct".data, "nov".data, "dec".data]

/-- Match one of the three-letter locale abbreviations, case-insensitively
(the alternation compiled for `%a` / `%b`). -/
def matchAbbrev3 (names : List Str) (s : Str) : Option (Nat × Str) :=
  match s with
  | c1 :: c2 :: c3 :: rest =>
    match names.findIdx? (fun n => n == [lowAscii c1, lowAscii c2, lowAscii c3]) with
    | some i => some (i, rest)
    | none => none
  | _ => none

def matchChar (c : Char) : Str → Option Str
  | d :: rest => if d = c then some rest else none
  | [] => none

/-- `\s+` as compiled for whitespace in the format string: one or more
whitespace characters, maximal munch. -/
def matchSpaces1 : Str → Option Str
  | c :: rest => if isPySpace c then some (rest.dropWhile isPySpace) else none
  | [] => none

/-- `%d` = `(3[01]|[12]\d|0[1-9]|[1-9])`. -/
def matchDay : Str → Option (Nat × Str)
  | c1 :: c2 :: rest =>
    if isAsciiDigit c1 ∧ isAsciiDigit c2 then
      let v := 10 * digitVal c1 + digitVal c2
      if (10 ≤ v ∧ v ≤ 31) ∨ (c1 = '0' ∧ 1 ≤ v ∧ v ≤ 9) then some (v, rest)
      else if 1 ≤ digitVal c1 then some (digitVal c1, c2 :: rest)
      else none
    else if isAsciiDigit c1 ∧ 1 ≤ digitVal c1 then some (digitVal c1, c2 :: rest)
    else none
  | [c1] => if isAsciiDigit c1 ∧ 1 ≤ digitVal c1 then some (digitVal c1, []) else none
  | [] => none

/-- `%Y` = `\d\d\d\d`. -/
def match4Digits : Str → Option (Nat × Str)
  | a :: b :: c :: d :: rest =>
    if isAsciiDigit a ∧ isAsciiDigit b ∧ isAsciiDigit c ∧ isAsciiDigit d then
      some (1000 * digitVal a + 100 * digitVal b + 10 * digitVal c + digitVal d, rest)
    else none
  | _ => none

/-- `%H` = `(2[0-3]|[0-1]\d|\d)`. -/
def matchHour : Str → Option (Nat × Str)
  | c1 :: c2 :: rest =>
    if isAsciiDigit c1 ∧ isAsciiDigit c2 ∧ 10 * digitVal c1 + digitVal c2 ≤ 23 then
      some (10 * digitVal c1 + digitVal c2, rest)
    else if isAsciiDigit c1 then some (digitVal c1, c2 :: rest)
    else none
  | [c1] => if isAsciiDigit c1 then some (digitVal c1, []) else none
  | [] => none

/-- `%M` = `([0-5]\d|\d)`. -/
def matchMinute : Str → Option (Nat × Str)
  | c1 :: c2 :: rest =>
    if isAsciiDigit c1 ∧ digitVal c1 ≤ 5 ∧ isAsciiDigit c2 then
      some (10 * digitVal c1 + digitVal c2, rest)
    else if isAsciiDigit c1 then some (digitVal c1, c2 :: rest)
    else none
  | [c1] => if isAsciiDigit c1 then some (digitVal c1, []) else none
  | [] => none

/-- `%S` = `(6[0-1]|[0-5]\d|\d)`. -/
def matchSecond : Str → Option (Nat × Str)
  | c1 :: c2 :: rest =>
    if (digitVal c1 = 6 ∧ isAsciiDigit c2 ∧ digitVal c2 ≤ 1 ∧ isAsciiDigit c1) ∨
       (isAsciiDigit c1 ∧ digitVal c1 ≤ 5 ∧ isAsciiDigit c2) then
      some (10 * digitVal c1 + digitVal c2, rest)
    else if isAsciiDigit c1 then some (digitVal c1, c2 :: rest)
    else none
  | [c1] => if isAsciiDigit c1 then some (digitVal c1, []) else none
  | [] => none

/-- The optional fraction `(\.\d{1,6})?` of an offset's seconds. -/
def tzFrac (r : Str) : Str :=
  match r with
  | '.' :: rest =>
    let ds := rest.takeWhile isAsciiDigit
    if 1 ≤ ds.length ∧ ds.length ≤ 6 then rest.drop ds.length else '.' :: rest
  | _ => r

/-- The optional seconds `(:?[0-5]\d(\.\d{1,6})?)?` of a `%z` offset; when
the group cannot match, nothing is consumed (the leftover then fails the
full-match check). -/
def tzSeconds (r : Str) : Str :=
  match (match r with | ':' :: t => t | _ => r) with
  | s1 :: s2 :: rest =>
    if isAsciiDigit s1 ∧ digitVal s1 ≤ 5 ∧ isAsciiDigit s2 then tzFrac rest else r
  | _ => r

/-- `%z` = `[+-]\d\d:?[0-5]\d(:?[0-5]\d(\.\d{1,6})?)?|Z`, followed by the
`timezone(timedelta(...))` range check (offset strictly below 24 hours)
performed when strptime builds the aware datetime. -/
def matchTz : Str → Option Str
  | [] => none
  | c :: rest =>
    if c = 'Z' then some rest
    else if c = '+' ∨ c = '-' then
      match rest with
      | h1 :: h2 :: r2 =>
        if isAsciiDigit h1 ∧ isAsciiDigit h2 then
          match (match r2 with | ':' :: r => r | _ => r2) with
          | m1 :: m2 :: r4 =>
            if isAsciiDigit m1 ∧ digitVal m1 ≤ 5 ∧ isAsciiDigit m2 then
              if (10 * digitVal h1 + digitVal h2) * 3600 +
                  (10 * digitVal m1 + digitVal m2) * 60 < 86400 then
                some (tzSeconds r4)
              else none
            else none
          | _ => none
        else none
      | _ => none
    else none

/-- The date half of the format: `%a, %d %b %Y` — returning (day, month
index, year, rest). -/
def parseDatePart (s0 : Str) : Option (Nat × Nat × Nat × Str) :=
  (matchAbbrev3 weekAbbrevs s0).bind fun p1 =>
  (matchChar ',' p1.2).bind fun s2 =>
  (matchSpaces1 s2).bind fun s3 =>
  (matchDay s3).bind fun pd =>
  (matchSpaces1 pd.2).bind fun s5 =>
  (matchAbbrev3 monthAbbrevs s5).bind fun pm =>
  (matchSpaces1 pm.2).bind fun s7 =>
  (match4Digits s7).bind fun py =>
  some (pd.1, pm.1, py.1, py.2)

/-- The time half of the format: ` %H:%M:%S %z` — returning (seconds,
rest). -/
def parseTimePart (s0 : Str) : Option (Nat × Str) :=
  (matchSpaces1 s0).bind fun s9 =>
  (matchHour s9).bind fun ph =>
  (matchChar ':' ph.2).bind fun s11 =>
  (matchMinute s11).bind fun pmin =>
  (matchChar ':' pmin.2).bind fun s13 =>
  (matchSecond s13).bind fun ps =>
  (matchSpaces1 ps.2).bind fun s15 =>
  (matchTz s15).bind fun s16 =>
  some (ps.1, s16)

/-- Models `datetime.strptime(s, "%a, %d %b %Y %H:%M:%S %z").date()`: the
regex CPython's TimeRE compiles for that format (matched against the whole
string — nothing may remain) followed by the datetime constructor's
validation; `none` exactly where strptime raises. -/
def parseRFC822 (s : Str) : Option PDate :=
  (parseDatePart s).bind fun a =>
  (parseTimePart a.2.2.2).bind fun b =>
  if b.2 = [] ∧ 1 ≤ a.2.2.1 ∧ 1 ≤ a.1 ∧ a.1 ≤ daysInMonth a.2.2.1 (a.2.1 + 1) ∧ b.1 ≤ 59 then
    some ⟨a.2.2.1, a.2.1 + 1, a.1⟩
  else none

/-- Models `datetime.fromisoformat(s).date()` for the date-only form
`YYYY-MM-DD`.  (CPython 3.11+ also accepts other ISO-8601 forms, e.g. with
a time part; those are not modelled, so on them this model falls back to
today's date one step early.) -/
def fromisoformatDate (s : Str) : Option PDate :=
  match s with
  | [y1, y2, y3, y4, '-', m1, m2, '-', d1, d2] =>
    if isAsciiDigit y1 ∧ isAsciiDigit y2 ∧ isAsciiDigit y3 ∧ isAsciiDigit y4 ∧
       isAsciiDigit m1 ∧ isAsciiDigit m2 ∧ isAsciiDigit d1 ∧ isAsciiDigit d2 then
      let y := 1000 * digitVal y1 + 100 * digitVal y2 + 10 * digitVal y3 + digitVal y4
      let m := 10 * digitVal m1 + digitVal m2
      let d := 10 * digitVal d1 + digitVal d2
      if 1 ≤ y ∧ 1 ≤ m ∧ m ≤ 12 ∧ 1 ≤ d ∧ d ≤ daysInMonth y m then some ⟨y, m, d⟩
      else none
    else none
  | _ => none

/-- `parse_date_rfc822` (lines 37-44): try RFC-822, on failure try ISO-8601,
on failure fall back to the current UTC date, passed in as `today`
(`datetime.now(timezone.utc).date()`). -/
def parse_date_rfc822 (s : Str) (today : PDate) : PDate :=
  match parseRFC822 s with
  | some d => d
  | none =>
    match fromisoformatDate s with
    | some d => d
    | none => today

def natDigits (n : Nat) : Str := (toString n).data

def pad2 (n : Nat) : Str := if n < 10 then '0' :: natDigits n else natDigits n

def pad4 (n : Nat) : Str :=
  if n < 10 then '0' :: '0' :: '0' :: natDigits n
  else if n < 100 then '0' :: '0' :: natDigits n
  else if n < 1000 then '0' :: natDigits n
  else natDigits n

/-- `date.isoformat()`: YYYY-MM-DD (line 75). -/
def isoformat (d : PDate) : Str :=
  pad4 d.year ++ ['-'] ++ pad2 d.month ++ ['-'] ++ pad2 d.day

/-- `strftime("%d-%m-%Y")`: DD-MM-YYYY (line 76). -/
def displayFormat (d : PDate) : Str :=
  pad2 d.day ++ ['-'] ++ pad2 d.month ++ ['-'] ++ pad4 d.year

/-- Claim C6: date parsing attempts RFC-822 first, on failure ISO-8601, on
failure falls back to the current UTC date, so a date is always produced
(the cascade is a total function); the example string
"Mon, 02 Jan 2024 10:00:00 +0000" yields the date 2024-01-02, whose iso
form is "2024-01-02" and display form "02-01-2024". -/
theorem date_cascade :
    (∀ (s : Str) (today d : PDate), parseRFC822 s = some d →
      parse_date_rfc822 s today = d) ∧
    (∀ (s : Str) (today d : PDate), parseRFC822 s = none → fromisoformatDate s = some d →
      parse_date_rfc822 s today = d) ∧
    (∀ (s : Str) (today : PDate), parseRFC822 s = none → fromisoformatDate s = none →
      parse_date_rfc822 s today = today) ∧
    (∀ today : PDate, parse_date_rfc822 "Mon, 02 Jan 2024 10:00:00 +0000".data today =
      ⟨2024, 1, 2⟩) ∧
    isoformat ⟨2024, 1, 2⟩ = "2024-01-02".data ∧
    displayFormat ⟨2024, 1, 2⟩ = "02-01-2024".data := by
  refine ⟨?_, ?_, ?_, ?_, by decide, by decide⟩
  · intro s today d h
    rw [parse_date_rfc822, h]
  · intro s today d h1 h2
    rw [parse_date_rfc822, h1, h2]
  · intro s today h1 h2
    rw [parse_date_rfc822, h1, h2]
  · intro today
    rw [parse_date_rfc822,
      show parseRFC822 "Mon, 02 Jan 2024 10:00:00 +0000".data = some ⟨2024, 1, 2⟩ from
        by decide]

/-- Witness for `date_cascade` at the spec's example string. -/
theorem date_cascade_witness :
    parseRFC822 "Mon, 02 Jan 2024 10:00:00 +0000".data = some ⟨2024, 1, 2⟩ ∧
    parse_date_rfc822 "Mon, 02 Jan 2024 10:00:00 +0000".data ⟨1970, 1, 1⟩ = ⟨2024, 1, 2⟩ :=
  ⟨by decide, date_cascade.1 "Mon, 02 Jan 2024 10:00:00 +0000".data ⟨1970, 1, 1⟩
    ⟨2024, 1, 2⟩ (by decide)⟩


/-- A small part of `html.unescape` (line 50): the five character references
`&amp;` `&lt;` `&gt;` `&quot;` `&#39;` actually produced by HTML-escaping of
feed text.  (The full CPython table of named and numeric references is not
modelled; inputs using other references are outside this model.) -/
def unescapeHtml : Str → Str
  | [] => []
  | c :: rest =>
    if c = '&' then
      if "amp;".data.isPrefixOf rest then '&' :: unescapeHtml (rest.drop 4)
      else if "lt;".data.isPrefixOf rest then '<' :: unescapeHtml (rest.drop 3)
      else if "gt;".data.isPrefixOf rest then '>' :: unescapeHtml (rest.drop 3)
      else if "quot;".data.isPrefixOf rest then '"' :: unescapeHtml (rest.drop 5)
      else if "#39;".data.isPrefixOf rest then Char.ofNat 39 :: unescapeHtml (rest.drop 4)
      else '&' :: unescapeHtml rest
    else c :: unescapeHtml rest
termination_by s => s.length
decreasing_by all_goals simp only [List.length_drop, List.length_cons]; omega

/-- The `/?>` tail of the `<br\s*/?>` regex: an optional slash then `>`. -/
def brClose (u : Str) : Option Str :=
  match u with
  | a :: b :: r =>
    if a = '/' ∧ b = '>' then some r else if a = '>' then some (b :: r) else none
  | [a] => if a = '>' then some [] else none
  | [] => none

/-- One attempt to match `<br\s*/?>` (case-insensitively, `re.I`) at the head
of the string; `\s` is modelled on its ASCII subset, like `isPySpace`. -/
def matchBr (s : Str) : Option Str :=
  match s with
  | a :: c1 :: c2 :: rest =>
    if a = '<' ∧ lowAscii c1 = 'b' ∧ lowAscii c2 = 'r' then
      brClose (rest.dropWhile isPySpace)
    else none
  | _ => none

theorem brClose_length {u r : Str} (h : brClose u = some r) : r.length ≤ u.length := by
  match u with
  | [] => exact absurd h (by simp [brClose])
  | [a] =>
    simp only [brClose] at h
    split at h
    · cases h; simp
    · exact absurd h (by simp)
  | a :: b :: t =>
    simp only [brClose] at h
    split at h
    · cases h; simp only [List.length_cons]; omega
    · split at h
      · cases h; simp only [List.length_cons]; omega
      · exact absurd h (by simp)

theorem matchBr_length {s r : Str} (h : matchBr s = some r) : r.length < s.length := by
  match s with
  | [] => exact absurd h (by simp [matchBr])
  | [a] => exact absurd h (by simp [matchBr])
  | [a, b] => exact absurd h (by simp [matchBr])
  | a :: c1 :: c2 :: rest =>
    simp only [matchBr] at h
    split at h
    · have h1 := brClose_length h
      have h2 : (rest.dropWhile isPySpace).length ≤ rest.length :=
        (List.dropWhile_suffix _).length_le
      simp only [List.length_cons]
      omega
    · exact absurd h (by simp)

/-- The scan of `re.sub(r"<br\s*/?>", "\n", s, flags=re.I)` (line 51):
leftmost matches replaced by a newline, the rest copied. -/
def subBr : Str → Str
  | [] => []
  | c :: rest =>
    match h : matchBr (c :: rest) with
    | some r => '\n' :: subBr r
    | none => c :: subBr rest
termination_by s => s.length
decreasing_by
  all_goals first
    | exact matchBr_length h
    | (simp only [List.length_cons]; omega)

/-- The `<p>` tail of the `</p>\s*<p>` regex. -/
def ppClose (u : Str) : Option Str :=
  match u with
  | a :: b :: c :: r => if a = '<' ∧ lowAscii b = 'p' ∧ c = '>' then some r else none
  | _ => none

/-- One attempt to match `</p>\s*<p>` (case-insensitively) at the head of the
string. -/
def matchPP (s : Str) : Option Str :=
  match s with
  | a :: b :: c :: d :: rest =>
    if a = '<' ∧ b = '/' ∧ lowAscii c = 'p' ∧ d = '>' then
      ppClose (rest.dropWhile isPySpace)
    else none
  | _ => none

theorem ppClose_length {u r : Str} (h : ppClose u = some r) : r.length ≤ u.length := by
  match u with
  | [] => exact absurd h (by simp [ppClose])
  | [a] => exact absurd h (by simp [ppClose])
  | [a, b] => exact absurd h (by simp [ppClose])
  | a :: b :: c :: t =>
    simp only [ppClose] at h
    split at h
    · cases h; simp only [List.length_cons]; omega
    · exact absurd h (by simp)

theorem matchPP_length {s r : Str} (h : matchPP s = some r) : r.length < s.length := by
  match s with
  | [] => exact absurd h (by simp [matchPP])
  | [a] => exact absurd h (by simp [matchPP])
  | [a, b] => exact absurd h (by simp [matchPP])
  | [a, b, c] => exact absurd h (by simp [matchPP])
  | a :: b :: c :: d :: rest =>
    simp only [matchPP] at h
    split at h
    · have h1 := ppClose_length h
      have h2 : (rest.dropWhile isPySpace).length ≤ rest.length :=
        (List.dropWhile_suffix _).length_le
      simp only [List.length_cons]
      omega
    · exact absurd h (by simp)

/-- The scan of `re.sub(r"</p>\s*<p>", "\n\n", s, flags=re.I)` (line 52). -/
def subPP : Str → Str
  | [] => []
  | c :: rest =>
    match h : matchPP (c :: rest) with
    | some r => '\n' :: '\n' :: subPP r
    | none => c :: subPP rest
termination_by s => s.length
decreasing_by
  all_goals first
    | exact matchPP_length h
    | (simp only [List.length_cons]; omega)

/-- The closing `>` reached after the `[^>]+` span. -/
def tagClose (u : Str) : Option Str :=
  match u with
  | c :: r => if c = '>' then some r else none
  | [] => none

/-- One attempt to match `<[^>]+>` at the head of the string: a `<`, at least
one character other than `>`, then the first `>`. -/
def matchTag (s : Str) : Option Str :=
  match s with
  | a :: b :: rest =>
    if a = '<' ∧ b ≠ '>' then tagClose ((b :: rest).dropWhile fun d => d ≠ '>')
    else none
  | _ => none

theorem tagClose_length {u r : Str} (h : tagClose u = some r) : r.length < u.length := by
  match u with
  | [] => exact absurd h (by simp [tagClose])
  | c :: t =>
    simp only [tagClose] at h
    split at h
    · cases h; simp only [List.length_cons]; omega
    · exact absurd h (by simp)

theorem matchTag_length {s r : Str} (h : matchTag s = some r) : r.length < s.length := by
  match s with
  | [] => exact absurd h (by simp [matchTag])
  | [a] => exact absurd h (by simp [matchTag])
  | a :: b :: rest =>
    simp only [matchTag] at h
    split at h
    · have h1 := tagClose_length h
      have h2 : ((b :: rest).dropWhile (fun d => d ≠ '>')).length ≤ (b :: rest).length :=
        (List.dropWhile_suffix _).length_le
      simp only [List.length_cons] at h1 h2 ⊢
      omega
    · exact absurd h (by simp)

/-- The scan of `re.sub(r"<[^>]+>", "", s)` (line 53): every tag-shaped span
deleted. -/
def subTags : Str → Str
  | [] => []
  | c :: rest =>
    match h : matchTag (c :: rest) with
    | some r => subTags r
    | none => c :: subTags rest
termination_by s => s.length
decreasing_by
  all_goals first
    | exact matchTag_length h
    | (simp only [List.length_cons]; omega)

/-- `strip_html` (lines 49-54): unescape, `<br>` to newline, paragraph breaks
to blank lines, remaining tags removed, then strip. -/
def strip_html (s : Str) : Str := pyStrip (subTags (subPP (subBr (unescapeHtml s))))

/-- One `<item>` of the feed, after the `text_or` defaulting of lines 46-47:
each absent child element or attribute is the empty string. -/
structure FeedItem where
  title : Str
  pubDate : Str
  description : Str
  link : Str
  guid : Str
  enclosureUrl : Str
deriving DecidableEq

/-- `build_front_matter` (lines 72-102); `today` stands for
`datetime.now(timezone.utc).date()`, reached only on the date-cascade
fallback. -/
def build_front_matter (item : FeedItem) (today : PDate) : EpisodeRecord :=
  let title := pyStrip item.title
  let pub_dt := parse_date_rfc822 item.pubDate today
  let link := pyStrip item.link
  { title := title
    date := isoformat pub_dt
    display_date := displayFormat pub_dt
    description := strip_html item.description
    rss_embed := rss_embed_of title link
    audio_url := if item.enclosureUrl ≠ [] then pyStrip item.enclosureUrl else []
    link := link
    tags := ["lytteøvelser".data, "podcast".data]
    draft := false }

/-- The identifier of line 189: `text_or(item.find("guid")) or
text_or(item.find("link"))` — the guid, falling back to the link when the
guid is empty. -/
def itemGuid (it : FeedItem) : Str := if it.guid ≠ [] then it.guid else it.link

/-- The slug of line 193: `f"{fm['date']}-{slugify(fm['title'])}"`. -/
def slugOf (fm : EpisodeRecord) : Str := fm.date ++ ['-'] ++ slugify fm.title

/-- The path `CONTENT_ROOT / slug / "index.md"` of lines 163-165. -/
def episodePath (slug : Str) : Str :=
  "content/lytteovelser/".data ++ slug ++ "/index.md".data

/-- Read one path of the modelled file system (newest write first). -/
def lookupFile (fs : List (Str × Str)) (p : Str) : Option Str :=
  (fs.find? fun e => e.1 == p).map fun e => e.2

/-- The mutable state of `main` (lines 175-201): the content files, the log
of writes performed, the `seen` set (kept as a duplicate-free list), and the
`changed` counter. -/
structure RunState where
  fs : List (Str × Str)
  writes : List (Str × Str)
  seen : List Str
  changed : Nat

/-- One iteration of the item loop (lines 188-198): skip when the identifier
is empty, else build the record, write or update the episode file, add the
identifier to `seen` if absent, and bump `changed` on an update. -/
def mainStep (today : PDate) (st : RunState) (it : FeedItem) : RunState :=
  if itemGuid it = [] then st
  else
    let fm := build_front_matter it today
    let p := episodePath (slugOf fm)
    let r := write_or_update_episode_file (lookupFile st.fs p) fm
    { fs := if r.1 then (p, r.2) :: st.fs else st.fs
      writes := if r.1 then st.writes ++ [(p, r.2)] else st.writes
      seen := if itemGuid it ∈ st.seen then st.seen else st.seen ++ [itemGuid it]
      changed := if r.1 then st.changed + 1 else st.changed }

/-- The item loop of `main` over the given feed items, starting from the
loaded state's `seen` list (made a set on line 178) and the initial file
system `fs0`. -/
def runMain (loaded : List Str) (items : List FeedItem) (today : PDate)
    (fs0 : List (Str × Str)) : RunState :=
  items.foldl (mainStep today) ⟨fs0, [], loaded.dedup, 0⟩

/-- The `seen` list persisted on lines 200-201: `state["seen"] = sorted(seen)`
followed by `save_state(state)`. -/
def sorted_seen (st : RunState) : List Str :=
  List.insertionSort (fun a b : Str => a ≤ b) st.seen

theorem mainStep_seen_mono (today : PDate) (st : RunState) (it : FeedItem) :
    st.seen ⊆ (mainStep today st it).seen := by
  simp only [mainStep]
  split
  · exact fun x hx => hx
  · dsimp only
    split
    · exact fun x hx => hx
    · exact fun x hx => List.mem_append_left _ hx

theorem foldl_seen_mono (today : PDate) (its : List FeedItem) :
    ∀ st : RunState, st.seen ⊆ (its.foldl (mainStep today) st).seen := by
  induction its with
  | nil => exact fun st x hx => hx
  | cons it rest ih =>
    intro st x hx
    exact ih (mainStep today st it) (mainStep_seen_mono today st it hx)

theorem mainStep_guid_mem (today : PDate) (st : RunState) (it : FeedItem)
    (h : itemGuid it ≠ []) : itemGuid it ∈ (mainStep today st it).seen := by
  simp only [mainStep, if_neg h]
  split
  · assumption
  · exact List.mem_append_right _ (List.mem_singleton.mpr rfl)

theorem guid_mem_foldl (today : PDate) (its : List FeedItem) :
    ∀ (st : RunState) (it : FeedItem), it ∈ its → itemGuid it ≠ [] →
      itemGuid it ∈ (its.foldl (mainStep today) st).seen := by
  induction its with
  | nil => intro st it hin; exact absurd hin (List.not_mem_nil it)
  | cons x rest ih =>
    intro st it hin h
    rw [List.foldl_cons]
    rcases List.mem_cons.mp hin with heq | hmem
    · subst heq
      exact foldl_seen_mono today rest (mainStep today st it) (mainStep_guid_mem today st it h)
    · exact ih (mainStep today st x) it hmem h

/-- Claim C9: the persisted `seen` list is sorted, contains every entry of
the loaded `seen` list (entries are never removed), and contains the
identifier (guid, falling back to link) of every processed item — one whose
identifier is nonempty. -/
theorem seen_state_invariant (loaded : List Str) (items : List FeedItem)
    (today : PDate) (fs0 : List (Str × Str)) :
    List.Sorted (fun a b : Str => a ≤ b) (sorted_seen (runMain loaded items today fs0)) ∧
    (∀ x ∈ loaded, x ∈ sorted_seen (runMain loaded items today fs0)) ∧
    (∀ it ∈ items, itemGuid it ≠ [] →
      itemGuid it ∈ sorted_seen (runMain loaded items today fs0)) := by
  refine ⟨List.sorted_insertionSort _ _, ?_, ?_⟩
  · intro x hx
    rw [sorted_seen]
    refine (List.mem_insertionSort _).mpr ?_
    rw [runMain]
    exact foldl_seen_mono today items _ (List.mem_dedup.mpr hx)
  · intro it hit hg
    rw [sorted_seen]
    refine (List.mem_insertionSort _).mpr ?_
    rw [runMain]
    exact guid_mem_foldl today items _ it hit hg

/-- A concrete feed item for the C9 witness. -/
def itemSample : FeedItem :=
  { title := "Hei".data
    pubDate := "Mon, 02 Jan 2024 10:00:00 +0000".data
    description := "<p>Hello</p><p>World</p>".data
    link := "https://rss.com/lytte/123".data
    guid := "g1".data
    enclosureUrl := "https://a/b.mp3".data }

/-- Witness for `seen_state_invariant`: one loaded entry and one processed
item, both found in the sorted persisted list. -/
theorem seen_state_invariant_witness :
    List.Sorted (fun a b : Str => a ≤ b)
      (sorted_seen (runMain ["z".data] [itemSample] ⟨2024, 1, 2⟩ [])) ∧
    "z".data ∈ sorted_seen (runMain ["z".data] [itemSample] ⟨2024, 1, 2⟩ []) ∧
    itemGuid itemSample ∈ sorted_seen (runMain ["z".data] [itemSample] ⟨2024, 1, 2⟩ []) :=
  ⟨(seen_state_invariant ["z".data] [itemSample] ⟨2024, 1, 2⟩ []).1,
   (seen_state_invariant ["z".data] [itemSample] ⟨2024, 1, 2⟩ []).2.1 "z".data (by decide),
   (seen_state_invariant ["z".data] [itemSample] ⟨2024, 1, 2⟩ []).2.2 itemSample (by decide)
     (by decide)⟩

theorem mainStep_state_congr (today : PDate) (it : FeedItem) (st1 st2 : RunState)
    (hfs : st1.fs = st2.fs) (hw : st1.writes = st2.writes)
    (hc : st1.changed = st2.changed) :
    (mainStep today st1 it).fs = (mainStep today st2 it).fs ∧
    (mainStep today st1 it).writes = (mainStep today st2 it).writes ∧
    (mainStep today st1 it).changed = (mainStep today st2 it).changed := by
  obtain ⟨fs1, w1, s1, c1⟩ := st1
  obtain ⟨fs2, w2, s2, c2⟩ := st2
  subst hfs; subst hw; subst hc
  simp only [mainStep]
  split
  · exact ⟨rfl, rfl, rfl⟩
  · exact ⟨rfl, rfl, rfl⟩

theorem foldl_state_congr (today : PDate) (its : List FeedItem) :
    ∀ st1 st2 : RunState, st1.fs = st2.fs → st1.writes = st2.writes →
      st1.changed = st2.changed →
      (its.foldl (mainStep today) st1).fs = (its.foldl (mainStep today) st2).fs ∧
      (its.foldl (mainStep today) st1).writes = (its.foldl (mainStep today) st2).writes ∧
      (its.foldl (mainStep today) st1).changed =
        (its.foldl (mainStep today) st2).changed := by
  induction its with
  | nil => exact fun st1 st2 h1 h2 h3 => ⟨h1, h2, h3⟩
  | cons x rest ih =>
    intro st1 st2 h1 h2 h3
    obtain ⟨g1, g2, g3⟩ := mainStep_state_congr today x st1 st2 h1 h2 h3
    exact ih (mainStep today st1 x) (mainStep today st2 x) g1 g2 g3

/-- Claim C10: two runs over the same items, date and initial files that
differ only in the loaded `seen` list perform the same writes (same paths,
same contents, in the same order), end with the same file system and the
same `changed` count — the loaded state never influences what is written. -/
theorem state_non_interference (loaded1 loaded2 : List Str) (items : List FeedItem)
    (today : PDate) (fs0 : List (Str × Str)) :
    (runMain loaded1 items today fs0).writes = (runMain loaded2 items today fs0).writes ∧
    (runMain loaded1 items today fs0).fs = (runMain loaded2 items today fs0).fs ∧
    (runMain loaded1 items today fs0).changed =
      (runMain loaded2 items today fs0).changed := by
  obtain ⟨h1, h2, h3⟩ := foldl_state_congr today items ⟨fs0, [], loaded1.dedup, 0⟩
    ⟨fs0, [], loaded2.dedup, 0⟩ rfl rfl rfl
  exact ⟨h2, h1, h3⟩

end Lytte
